import Mathlib

/-!
Verification of the dim-matcher matching-and-validation engine.

JavaScript strings are modelled as lists of character codes (`JStr`);
all inputs of interest are ASCII, so a code is the Unicode code point.
The empty list plays the role of both the empty string and of
`null`/`undefined` where JavaScript truthiness is what the code tests.
-/

set_option maxRecDepth 40000

/-- A JavaScript string as a list of character codes. -/
abbrev JStr := List Nat

/-- Character codes of a Lean string literal. -/
def jstr (s : String) : JStr := s.data.map Char.toNat

/-- The characters matched by the JavaScript regex class `\s`
(space, tab, and the other ASCII line/space controls). -/
def isWs (c : Nat) : Bool := c = 32 || c = 9 || c = 10 || c = 11 || c = 12 || c = 13

/-- ASCII decimal digit. -/
def isDigit (c : Nat) : Bool := 48 ≤ c && c ≤ 57

/-- Lower-case ASCII letter. -/
def isLowerAlpha (c : Nat) : Bool := 97 ≤ c && c ≤ 122

/-- The JavaScript regex class `\w` (letters, digits, underscore). -/
def isWordChar (c : Nat) : Bool :=
  (97 ≤ c && c ≤ 122) || (48 ≤ c && c ≤ 57) || (65 ≤ c && c ≤ 90) || c = 95

/-- `String.prototype.toLowerCase` on one ASCII code. -/
def toLowerCode (c : Nat) : Nat := if 65 ≤ c ∧ c ≤ 90 then c + 32 else c

/-- `String.prototype.toUpperCase` on one ASCII code. -/
def toUpperCode (c : Nat) : Nat := if 97 ≤ c ∧ c ≤ 122 then c - 32 else c

def jsToLower (s : JStr) : JStr := s.map toLowerCode

def jsToUpper (s : JStr) : JStr := s.map toUpperCode

/-- `String.prototype.trim`: strip leading and trailing whitespace. -/
def jsTrim (s : JStr) : JStr :=
  ((s.dropWhile isWs).reverse.dropWhile isWs).reverse

/-- Drop a trailing run of whitespace. -/
def dropTrailingWs (s : JStr) : JStr := (s.reverse.dropWhile isWs).reverse

/-- `replace(/\s+/g, ' ')`: collapse every whitespace run into one space
(a run's single output space is emitted at the run's last character). -/
def collapseWs : JStr → JStr
  | [] => []
  | a :: rest =>
    match rest with
    | [] => if isWs a then [32] else [a]
    | b :: rest2 =>
      if isWs a && isWs b then collapseWs (b :: rest2)
      else (if isWs a then 32 else a) :: collapseWs (b :: rest2)

namespace Normalize

/-- `normalizeString` from `lib/normalize.ts`: lower-case, trim, strip
every character outside `[a-z0-9\s]`, collapse whitespace runs. -/
def normalizeString (s : JStr) : JStr :=
  if s = [] then []
  else collapseWs ((jsTrim (jsToLower s)).filter
    (fun c => isLowerAlpha c || isDigit c || isWs c))

/-- Whether the character after a candidate match keeps the closing `\b`
of a word-bounded pattern satisfied. -/
def boundaryAfter : JStr → Bool
  | [] => true
  | d :: _ => !isWordChar d

/-- One pass of `replace(/\bw\b/g, repl)` for a word `w` made of word
characters: scan left to right, `prevWord` records whether the character
just before the current position is a word character (for the opening
`\b`); after a match the scan resumes past the matched text, as the
JavaScript global-replace cursor does. -/
def replaceWordGo (w repl : JStr) : Nat → Bool → JStr → JStr
  | 0, _, s => s
  | _ + 1, _, [] => []
  | fuel + 1, prevWord, c :: rest =>
    if w ≠ [] ∧ prevWord = false ∧ w.isPrefixOf (c :: rest) ∧
        boundaryAfter ((c :: rest).drop w.length) then
      repl ++ replaceWordGo w repl fuel
        (match w.getLast? with | some l => isWordChar l | none => prevWord)
        ((c :: rest).drop w.length)
    else
      c :: replaceWordGo w repl fuel (isWordChar c) rest

/-- `str.replace(/\bw\b/g, repl)` for a pattern `w` of word characters.
The fuel argument only drives structural recursion: every step of
`replaceWordGo` consumes at least one character, so `s.length` steps
always reach the end of the string. -/
def replaceWordAll (w repl s : JStr) : JStr := replaceWordGo w repl s.length false s

/-- `normalized.replace(new RegExp("\\s*\\b" + suffix + "\\b\\s*$"), '')`:
strip one word-bounded occurrence of `suffix` at the end of the string,
together with the whitespace around it.  The regex is anchored at `$`, so
it matches exactly when the string minus trailing whitespace ends in
`suffix` and the character before that occurrence is absent, whitespace,
or a non-word character. -/
def stripSuffixWord (suf s : JStr) : JStr :=
  let t := dropTrailingWs s
  if suf.isSuffixOf t then
    let a := t.take (t.length - suf.length)
    let a2 := dropTrailingWs a
    if a2.length < a.length then a2
    else
      match a.getLast? with
      | none => a
      | some c => if isWordChar c then s else a
  else s

/-- `COMPANY_SUFFIXES` from `lib/normalize.ts`, in source order. -/
def COMPANY_SUFFIXES : List JStr :=
  [jstr "ltd", jstr "limited", jstr "pty", jstr "pty ltd", jstr "pty limited",
   jstr "inc", jstr "incorporated", jstr "llc", jstr "plc", jstr "llp", jstr "group",
   jstr "holdings", jstr "corporation", jstr "corp", jstr "sa", jstr "nv", jstr "ab",
   jstr "gmbh", jstr "ag", jstr "sarl", jstr "pte", jstr "lp", jstr "llp", jstr "co",
   jstr "company"]

/-- `normalizeCompanyName` from `lib/normalize.ts`.  The final
`replace(/\b(and|&)\b/g, '')` is modelled as removal of the word `and`
only: `&` cannot occur, since `normalizeString` already removed every
character outside `[a-z0-9\s]`. -/
def normalizeCompanyName (name : JStr) : JStr :=
  if name = [] then []
  else
    jsTrim (replaceWordAll (jstr "and") []
      (COMPANY_SUFFIXES.foldl (fun acc suf => stripSuffixWord suf acc)
        (normalizeString name)))

/-- `STREET_ABBREVIATIONS` from `lib/normalize.ts`, in source order. -/
def STREET_ABBREVIATIONS : List (JStr × JStr) :=
  [(jstr "st", jstr "street"), (jstr "rd", jstr "road"), (jstr "ave", jstr "avenue"),
   (jstr "blvd", jstr "boulevard"), (jstr "ln", jstr "lane"), (jstr "dr", jstr "drive"),
   (jstr "ct", jstr "court"), (jstr "pl", jstr "place"), (jstr "trl", jstr "trail"),
   (jstr "pkwy", jstr "parkway"), (jstr "hwy", jstr "highway")]

/-- `normalizeAddress` from `lib/normalize.ts`. -/
def normalizeAddress (address : JStr) : JStr :=
  if address = [] then []
  else
    STREET_ABBREVIATIONS.foldl (fun acc p => replaceWordAll p.1 p.2 acc)
      (normalizeString address)

/-- A country's phone-prefix triple. -/
structure PhonePrefixes where
  international : JStr
  localPrefix : JStr
  expectedLength : Nat
deriving DecidableEq

/-- `PHONE_PREFIXES` from `lib/normalize.ts`, in source (insertion) order. -/
def PHONE_PREFIXES : List (JStr × PhonePrefixes) :=
  [(jstr "australia", ⟨jstr "61", jstr "0", 9⟩),
   (jstr "new zealand", ⟨jstr "64", jstr "0", 8⟩),
   (jstr "united kingdom", ⟨jstr "44", jstr "0", 10⟩),
   (jstr "uk", ⟨jstr "44", jstr "0", 10⟩),
   (jstr "england", ⟨jstr "44", jstr "0", 10⟩),
   (jstr "scotland", ⟨jstr "44", jstr "0", 10⟩),
   (jstr "wales", ⟨jstr "44", jstr "0", 10⟩),
   (jstr "northern ireland", ⟨jstr "44", jstr "0", 10⟩),
   (jstr "ireland", ⟨jstr "353", jstr "0", 9⟩),
   (jstr "united states", ⟨jstr "1", jstr "1", 10⟩),
   (jstr "usa", ⟨jstr "1", jstr "1", 10⟩),
   (jstr "germany", ⟨jstr "49", jstr "0", 10⟩),
   (jstr "france", ⟨jstr "33", jstr "0", 9⟩)]

/-- `a.includes(b)` in the contained-string direction: `sub` occurs
contiguously inside `s`. -/
def isSubstringOf (sub s : JStr) : Bool := decide (sub <:+: s)

/-- `DEFAULT_PREFIXES` from `lib/normalize.ts`. -/
def DEFAULT_PREFIXES : PhonePrefixes := ⟨jstr "44", jstr "0", 10⟩

/-- Country resolution inside `normalizePhone`: exact key match first,
then the first table entry whose key contains or is contained in the
lower-cased country (`countryLower.includes(key) || key.includes(countryLower)`),
else the default.  An empty country models both `undefined` and `''`
(both are falsy at `if (country)`). -/
def resolvePrefixes (country : JStr) : PhonePrefixes :=
  if country = [] then DEFAULT_PREFIXES
  else
    let countryLower := jsToLower country
    match PHONE_PREFIXES.find? (fun p => p.1 = countryLower) with
    | some p => p.2
    | none =>
      match PHONE_PREFIXES.find?
          (fun p => isSubstringOf p.1 countryLower || isSubstringOf countryLower p.1) with
      | some p => p.2
      | none => DEFAULT_PREFIXES

/-- `str.slice(-n)`: the last `n` elements (everything if `n ≥ length`). -/
def takeLastN (n : Nat) (s : JStr) : JStr := s.drop (s.length - n)

/-- `normalizePhone` from `lib/normalize.ts`. -/
def normalizePhone (phone : JStr) (country : JStr) : JStr :=
  if phone = [] then []
  else
    let prefixes := resolvePrefixes country
    let digits := phone.filter isDigit
    if digits.length < 5 then []
    else
      let digits :=
        if prefixes.international.isPrefixOf digits then
          digits.drop prefixes.international.length
        else if (jstr "0").isPrefixOf digits ∧ prefixes.localPrefix = jstr "0" then
          digits.drop 1
        else digits
      takeLastN prefixes.expectedLength digits

/-- `normalizeWebsite` from `lib/normalize.ts`.  The regexes
`^https?:\/\/`, `^www\.` and `\/$` are anchored prefix/suffix strips;
`split('/')[0]` and `split('?')[0]` keep the text before the first
separator. -/
def normalizeWebsite (url : JStr) : JStr :=
  if url = [] then []
  else
    let t := jsToLower url
    let t := if (jstr "https://").isPrefixOf t then t.drop 8
             else if (jstr "http://").isPrefixOf t then t.drop 7
             else t
    let t := if (jstr "www.").isPrefixOf t then t.drop 4 else t
    let t := if t.getLast? = some 47 then t.dropLast else t
    let t := t.takeWhile (fun c => c ≠ 47)
    t.takeWhile (fun c => c ≠ 63)

/-- `GENERIC_EMAIL_DOMAINS` from `lib/config.ts`. -/
def GENERIC_EMAIL_DOMAINS : List JStr :=
  [jstr "gmail.com", jstr "yahoo.com", jstr "yahoo.co.uk", jstr "hotmail.com",
   jstr "hotmail.co.uk", jstr "outlook.com", jstr "live.com", jstr "msn.com",
   jstr "aol.com", jstr "icloud.com", jstr "mail.com", jstr "protonmail.com",
   jstr "zoho.com", jstr "yandex.com", jstr "gmx.com", jstr "googlemail.com",
   jstr "me.com", jstr "mac.com", jstr "btinternet.com", jstr "sky.com"]

/-- Character class `[a-z0-9.-]` of the email-domain regex. -/
def isDomainChar (c : Nat) : Bool :=
  isLowerAlpha c || isDigit c || c = 46 || c = 45

/-- The text after the last occurrence of `c` (the whole string if absent). -/
def afterLast (c : Nat) (s : JStr) : JStr :=
  ((s.reverse.takeWhile (fun d => d ≠ c)).reverse)

/-- Matching of `/@([a-z0-9.-]+\.[a-z]{2,})$/i` against an already
lower-cased string.  The class `[a-z0-9.-]` excludes `@`, so only the
last `@` can start a match; the captured group is then the whole
remainder, which matches exactly when all of it lies in the class and
the text after its last dot is at least two letters with a nonempty
part before that dot. -/
def emailDomainMatch (cleaned : JStr) : Option JStr :=
  if 64 ∈ cleaned then
    let r := afterLast 64 cleaned
    let b := afterLast 46 r
    if r.all isDomainChar ∧ 46 ∈ r ∧ 2 ≤ b.length ∧ b.all isLowerAlpha ∧
        b.length + 2 ≤ r.length then
      some r
    else none
  else none

/-- `extractEmailDomain` from `lib/normalize.ts`: the regex capture if it
matches, filtered against the generic-provider blocklist. -/
def extractEmailDomain (email : JStr) : Option JStr :=
  if email = [] then none
  else
    match emailDomainMatch (jsTrim (jsToLower email)) with
    | some domain =>
      if domain ∈ GENERIC_EMAIL_DOMAINS then none else some domain
    | none => none

end Normalize

/-- A JavaScript number as an exact fraction (every number the engine
computes here is a ratio of small integers; the denominator is positive
in every constructed value). -/
structure JNum where
  num : ℤ
  den : ℤ
deriving DecidableEq, Repr

/-- Embed an integer. -/
def JNum.ofInt (n : ℤ) : JNum := ⟨n, 1⟩

/-- Fraction `n / d`. -/
def JNum.frac (n d : ℤ) : JNum := ⟨n, d⟩

/-- Product of two fractions. -/
def JNum.mul (a b : JNum) : JNum := ⟨a.num * b.num, a.den * b.den⟩

/-- `a < b` by cross-multiplication (valid because constructed
denominators are positive). -/
def JNum.blt (a b : JNum) : Bool := a.num * b.den < b.num * a.den

/-- The rational value of a fraction. -/
def JNum.toRat (a : JNum) : ℚ := (a.num : ℚ) / (a.den : ℚ)

/-- `Math.round`: `⌊q + 1/2⌋`, computed on the fraction as floor division
`(2·num + den) fdiv (2·den)`. -/
def jsRound (q : JNum) : ℤ := (2 * q.num + q.den).fdiv (2 * q.den)

namespace Normalize

/-- The consecutive character pairs of a string. -/
def bigrams : JStr → List (Nat × Nat)
  | a :: b :: rest => (a, b) :: bigrams (b :: rest)
  | _ => []

/-- Bump a bigram's count in an association map (insert with count 1 if absent). -/
def addBigram (m : List ((Nat × Nat) × Nat)) (bg : Nat × Nat) : List ((Nat × Nat) × Nat) :=
  match m with
  | [] => [(bg, 1)]
  | (k, n) :: rest => if k = bg then (k, n + 1) :: rest else (k, n) :: addBigram rest bg

/-- A bigram's count in the association map (0 if absent). -/
def lookupCount (m : List ((Nat × Nat) × Nat)) (bg : Nat × Nat) : Nat :=
  match m with
  | [] => 0
  | (k, n) :: rest => if k = bg then n else lookupCount rest bg

/-- Decrement a bigram's count in the association map. -/
def decCount (m : List ((Nat × Nat) × Nat)) (bg : Nat × Nat) : List ((Nat × Nat) × Nat) :=
  match m with
  | [] => []
  | (k, n) :: rest => if k = bg then (k, n - 1) :: rest else (k, n) :: decCount rest bg

/-- `compareTwoStrings` from the `string-similarity` dependency (the Dice
bigram coefficient the spec describes as the bounded bigram similarity
metric): strip all whitespace from both strings, return 1 on equality and
0 when either is shorter than two characters, else twice the multiset
intersection of their bigrams divided by the total bigram count. -/
def compareTwoStrings (a b : JStr) : JNum :=
  let first := a.filter (fun c => !isWs c)
  let second := b.filter (fun c => !isWs c)
  if first = second then .ofInt 1
  else if first.length < 2 ∨ second.length < 2 then .ofInt 0
  else
    let firstBigrams := (bigrams first).foldl addBigram []
    let res := (bigrams second).foldl
      (fun st bg =>
        if 0 < lookupCount st.1 bg then (decCount st.1 bg, st.2 + 1) else st)
      (firstBigrams, (0 : ℕ))
    .frac (2 * (res.2 : ℤ)) ((first.length + second.length - 2 : ℕ) : ℤ)

/-- Outcome of one field comparison (`'exact' | 'partial' | 'none'` in the
source; `near` stands for `'partial'`, `nomatch` for `'none'`). -/
inductive FieldStatus where
  | exact
  | near
  | nomatch
deriving DecidableEq, Repr

/-- `compareFieldValues` from `lib/normalize.ts`: phones and websites get
exact-normalized equality only; other fields normalize by field-type rule
and fall back to bigram similarity against a field-specific threshold
(0.6 for Name, 0.8 otherwise). -/
def compareFieldValues (field : JStr) (value1 value2 : JStr) (country : JStr) :
    FieldStatus × JNum :=
  if value1 = [] ∨ value2 = [] then (.nomatch, .ofInt 0)
  else if field = jstr "Phone" then
    let norm1 := normalizePhone value1 country
    let norm2 := normalizePhone value2 country
    (if norm1 ≠ [] ∧ norm2 ≠ [] ∧ norm1 = norm2 then .exact else .nomatch,
     if norm1 = norm2 then .ofInt 1 else .ofInt 0)
  else if field = jstr "Website" then
    let norm1 := normalizeWebsite value1
    let norm2 := normalizeWebsite value2
    (if norm1 ≠ [] ∧ norm2 ≠ [] ∧ norm1 = norm2 then .exact else .nomatch,
     if norm1 = norm2 then .ofInt 1 else .ofInt 0)
  else
    let norm1 := if field = jstr "Name" then normalizeCompanyName value1
      else if isSubstringOf (jstr "Street") field || isSubstringOf (jstr "Address") field then
        normalizeAddress value1
      else normalizeString value1
    let norm2 := if field = jstr "Name" then normalizeCompanyName value2
      else if isSubstringOf (jstr "Street") field || isSubstringOf (jstr "Address") field then
        normalizeAddress value2
      else normalizeString value2
    if norm1 = norm2 then (.exact, .ofInt 1)
    else
      let similarity := compareTwoStrings norm1 norm2
      let threshold : JNum := if field = jstr "Name" then .frac 3 5 else .frac 4 5
      (if threshold.blt similarity then .near else .nomatch, similarity)

end Normalize

/-- Decimal rendering of an integer as a JavaScript string. -/
def intToJStr (i : ℤ) : JStr := jstr (toString i)

/-- An account in the standard shape used by the matching engine
(`Name, Phone, Website, Email, EmailDomain, Billing*`).  Every field is a
string; `[]` stands for `''`, `null` and `undefined` alike, which the
source only ever distinguishes by truthiness. -/
structure Account where
  Name : JStr := []
  Phone : JStr := []
  Website : JStr := []
  Email : JStr := []
  EmailDomain : JStr := []
  BillingStreet : JStr := []
  BillingCity : JStr := []
  BillingPostalCode : JStr := []
  BillingCountry : JStr := []
deriving DecidableEq, Repr

/-- Dynamic property access `account[field]` for the field names the
scoring configurations use; any other name reads `undefined` (`[]`). -/
def Account.getField (a : Account) (f : JStr) : JStr :=
  if f = jstr "Name" then a.Name
  else if f = jstr "Phone" then a.Phone
  else if f = jstr "Website" then a.Website
  else if f = jstr "BillingStreet" then a.BillingStreet
  else if f = jstr "BillingCity" then a.BillingCity
  else []

/-- A configured field weight: either the `{exact, alike}` object form or
a plain number. -/
inductive FieldPoints where
  | pair (exactPts alikePts : ℤ)
  | flat (w : ℤ)
deriving DecidableEq, Repr

/-- Result record of `calculateMatchScore`. -/
structure MatchResult where
  score : ℤ
  matchedFields : List JStr
  isAboveThreshold : Bool
  maxPossibleScore : ℤ
deriving DecidableEq, Repr

open Normalize in
/-- Status rendered into a matched-fields label. -/
def statusText : FieldStatus → JStr
  | .exact => jstr "exact"
  | .near => jstr "partial"
  | .nomatch => jstr "none"

/-- The matched-fields entry
`` `${field} (${status}: ${Math.round(similarity * 100)}%)` ``. -/
def fieldLabel (field : JStr) (st : Normalize.FieldStatus) (similarity : JNum) : JStr :=
  field ++ jstr " (" ++ statusText st ++ jstr ": " ++
    intToJStr (jsRound (similarity.mul (.ofInt 100))) ++ jstr "%)"

/-- The per-field point contribution of `calculateMatchScore`:
`typeof points === 'object' ? (status === 'exact' ? points.exact : points.alike)
: Math.round(points * similarity)`. -/
def fieldContribution (points : FieldPoints) (st : Normalize.FieldStatus) (similarity : JNum) : ℤ :=
  match points with
  | .pair exactPts alikePts => if st = .exact then exactPts else alikePts
  | .flat w => jsRound ((JNum.ofInt w).mul similarity)

open Normalize in
/-- The standard field-matching loop shared verbatim by both versions of
`calculateMatchScore`: walk the configured fields in order, skip
`'none'` comparisons, and accumulate contributions and labels. -/
def scoreFields (fields : List (JStr × FieldPoints)) (src tgt : Account) (country : JStr) :
    ℤ × List JStr :=
  fields.foldl
    (fun acc fp =>
      let r := compareFieldValues fp.1 (src.getField fp.1) (tgt.getField fp.1) country
      if r.1 ≠ .nomatch then
        (acc.1 + fieldContribution fp.2 r.1 r.2, acc.2 ++ [fieldLabel fp.1 r.1 r.2])
      else acc)
    (0, [])

namespace Matching
open Normalize

/-- `MATCHING.fields` from `lib/config.ts`, in source order. -/
def MATCHING_fields : List (JStr × FieldPoints) :=
  [(jstr "Name", .pair 85 50),
   (jstr "Phone", .flat 30),
   (jstr "Website", .flat 25),
   (jstr "BillingStreet", .flat 20),
   (jstr "BillingCity", .flat 10)]

/-- `MATCHING.threshold` from `lib/config.ts`. -/
def MATCHING_threshold : ℤ := 85

/-- `MATCHING.maxPossibleScore` from `lib/config.ts`. -/
def MATCHING_maxPossibleScore : ℤ := 195

/-- The `Website ↔ EmailDomain` cross-match step of `calculateMatchScore`
(config-based version): at most one of the two exclusive branches adds
the fixed 25-point bonus and its label. -/
def crossMatch (src tgt : Account) : ℤ × List JStr :=
  let sourceWebsite := normalizeWebsite src.Website
  let sourceEmailDomain : Option JStr :=
    if src.EmailDomain ≠ [] then some src.EmailDomain else extractEmailDomain src.Email
  let targetWebsite := normalizeWebsite tgt.Website
  let targetEmailDomain : Option JStr :=
    if tgt.EmailDomain ≠ [] then some tgt.EmailDomain else extractEmailDomain tgt.Email
  if sourceWebsite ≠ [] ∧ (∃ d, targetEmailDomain = some d ∧ d ≠ [] ∧ sourceWebsite = d) then
    (25, [jstr "Website↔EmailDomain (cross-match)"])
  else if (∃ d, sourceEmailDomain = some d ∧ d ≠ []) ∧ targetWebsite ≠ [] ∧
      sourceEmailDomain = some targetWebsite then
    (25, [jstr "EmailDomain↔Website (cross-match)"])
  else (0, [])

/-- `calculateMatchScore` from the config-based engine version: standard
field loop over `MATCHING.fields`, then the cross-match bonus. -/
def calculateMatchScore (sourceAccount targetAccount : Account) (country : JStr) :
    MatchResult :=
  let base := scoreFields MATCHING_fields sourceAccount targetAccount country
  let cross := crossMatch sourceAccount targetAccount
  { score := base.1 + cross.1
    matchedFields := base.2 ++ cross.2
    isAboveThreshold := base.1 + cross.1 ≥ MATCHING_threshold
    maxPossibleScore := MATCHING_maxPossibleScore }

end Matching

namespace MatchingLib

/-- `ALIKE_MATCH_FIELDS` from `lib/matching-config.ts`, in source order. -/
def ALIKE_MATCH_FIELDS : List (JStr × FieldPoints) :=
  [(jstr "Name", .pair 85 50),
   (jstr "BillingStreet", .flat 20),
   (jstr "Phone", .flat 25),
   (jstr "Website", .flat 15),
   (jstr "Company_Registration_No__c", .flat 100),
   (jstr "BillingCity", .flat 25)]

/-- `MATCH_THRESHOLD` from `lib/matching-config.ts`. -/
def MATCH_THRESHOLD : ℤ := 85

/-- `MAX_POSSIBLE_SCORE` from `lib/matching-config.ts`. -/
def MAX_POSSIBLE_SCORE : ℤ := 295

/-- `calculateMatchScore` from `lib/matching.ts` (the version the chunked
pipeline imports): the standard field loop only, no cross-match bonus. -/
def calculateMatchScore (sourceAccount targetAccount : Account) (country : JStr) :
    MatchResult :=
  let base := scoreFields ALIKE_MATCH_FIELDS sourceAccount targetAccount country
  { score := base.1
    matchedFields := base.2
    isAboveThreshold := base.1 ≥ MATCH_THRESHOLD
    maxPossibleScore := MAX_POSSIBLE_SCORE }

end MatchingLib

namespace AIValidation

/-- `AI_CONFIG.minScore` from `lib/config.ts`. -/
def AI_minScore : ℤ := 20

/-- `AI_CONFIG.maxScore` from `lib/config.ts`. -/
def AI_maxScore : ℤ := 100

/-- `AIValidationResult` from `lib/ai-validation.ts`; `error := some s`
models a present `error` property (truthy when `s ≠ []`). -/
structure AIValidationResult where
  isMatch : Bool
  confidence : ℤ
  reasoning : JStr
  error : Option JStr := none
deriving DecidableEq, Repr

/-- Truthiness of the optional `error` property. -/
def errorTruthy : Option JStr → Bool
  | some s => s ≠ []
  | none => false

/-- `shouldValidateWithAI` from `lib/ai-validation.ts`. -/
def shouldValidateWithAI (heuristicScore : ℤ) : Bool :=
  AI_minScore ≤ heuristicScore && heuristicScore ≤ AI_maxScore

/-- The three final statuses of `determineFinalStatus`. -/
inductive FinalStatus where
  | confirmed
  | rejected
  | review
deriving DecidableEq, Repr

/-- `determineFinalStatus` from `lib/ai-validation.ts`. -/
def determineFinalStatus (heuristicScore : ℤ) (aiResult : Option AIValidationResult) :
    FinalStatus :=
  match aiResult with
  | none =>
    if heuristicScore > 100 then .review
    else if heuristicScore < AI_minScore then .rejected
    else .review
  | some r =>
    if errorTruthy r.error then
      if heuristicScore > 100 then .review
      else if heuristicScore < AI_minScore then .rejected
      else .review
    else if r.confidence ≥ 80 then
      if r.isMatch then .confirmed else .rejected
    else if r.confidence ≥ 60 then
      if r.isMatch ∧ heuristicScore ≥ 85 then .confirmed
      else if ¬r.isMatch ∧ heuristicScore < 50 then .rejected
      else .review
    else .review

end AIValidation

namespace ValidateRoute

/-- One parsed verdict line of `app/api/ai/validate/route.ts`. -/
structure ValidationResult where
  id : ℤ
  isMatch : Bool
  confidence : ℤ
  reasoning : JStr
deriving DecidableEq, Repr

/-- The default verdict filled in for a requested id with no parsed line. -/
def defaultVerdict (id : ℤ) : ValidationResult :=
  ⟨id, false, 0, jstr "AI did not return result"⟩

/-- `replace(pat, '')` globally (case-sensitive): drop every
non-overlapping occurrence, resuming after each match.  Fuel only drives
structural recursion; every step consumes at least one character. -/
def removeAllGo (pat : JStr) : Nat → JStr → JStr
  | 0, s => s
  | _ + 1, [] => []
  | fuel + 1, c :: rest =>
    if pat ≠ [] ∧ pat.isPrefixOf (c :: rest) then
      removeAllGo pat fuel ((c :: rest).drop pat.length)
    else c :: removeAllGo pat fuel rest

def removeAll (pat s : JStr) : JStr := removeAllGo pat s.length s

/-- Case-insensitive prefix test (for the `/```csv/gi` strip). -/
def isPrefixOfCI (pat s : JStr) : Bool :=
  jsToLower (s.take pat.length) = jsToLower pat && pat.length ≤ s.length

/-- `replace(pat, '')` globally and case-insensitively. -/
def removeAllCIGo (pat : JStr) : Nat → JStr → JStr
  | 0, s => s
  | _ + 1, [] => []
  | fuel + 1, c :: rest =>
    if pat ≠ [] ∧ isPrefixOfCI pat (c :: rest) then
      removeAllCIGo pat fuel ((c :: rest).drop pat.length)
    else c :: removeAllCIGo pat fuel rest

def removeAllCI (pat s : JStr) : JStr := removeAllCIGo pat s.length s

/-- `replace(/^[^0-9]+/gm, '')`: at the start of the string and after any
newline, remove a maximal nonempty run of non-digits.  Because `[^0-9]`
also matches `\n`, a run can swallow newlines and following lines, exactly
as the JavaScript regex does. -/
def stripLineStartsGo : Nat → Bool → JStr → JStr
  | 0, _, s => s
  | _ + 1, _, [] => []
  | fuel + 1, lineStart, c :: rest =>
    if lineStart ∧ ¬isDigit c then
      stripLineStartsGo fuel false ((c :: rest).dropWhile (fun d => !isDigit d))
    else c :: stripLineStartsGo fuel (c = 10) rest

def stripLineStarts (s : JStr) : JStr := stripLineStartsGo s.length true s

/-- `str.split(sep)` for a one-character separator. -/
def splitOn (sep : Nat) (s : JStr) : List JStr :=
  s.foldr
    (fun c acc =>
      if c = sep then [] :: acc
      else match acc with
        | h :: t => (c :: h) :: t
        | [] => [[c]])
    [[]]

/-- Value of a nonempty digit run. -/
def digitsToNat (ds : JStr) : ℕ :=
  ds.foldl (fun acc c => acc * 10 + (c - 48)) 0

/-- Hexadecimal digit test, for the `0x` autodetection of bare `parseInt`. -/
def isHexDigit (c : Nat) : Bool :=
  isDigit c || (97 ≤ c && c ≤ 102) || (65 ≤ c && c ≤ 70)

/-- Value of a hexadecimal digit character code. -/
def hexVal (c : Nat) : ℕ :=
  if isDigit c then c - 48 else if 97 ≤ c then c - 87 else c - 55

/-- `parseInt(str)` with no radix argument: skip leading whitespace and an
optional sign, then either `0x`/`0X` followed by a nonempty hexadecimal
digit run, or a nonempty decimal digit run; `none` models `NaN`. -/
def jsParseInt (s : JStr) : Option ℤ :=
  let t := s.dropWhile isWs
  let signAndRest : ℤ × JStr :=
    match t with
    | 45 :: rest => (-1, rest)
    | 43 :: rest => (1, rest)
    | _ => (1, t)
  let isHex : Bool :=
    match signAndRest.2 with
    | 48 :: x :: _ => x = 120 || x = 88
    | _ => false
  if isHex then
    let hdigits := (signAndRest.2.drop 2).takeWhile isHexDigit
    if hdigits = [] then none
    else some (signAndRest.1 * (hdigits.foldl (fun acc c => acc * 16 + hexVal c) 0 : ℤ))
  else
    let digits := signAndRest.2.takeWhile isDigit
    if digits = [] then none
    else some (signAndRest.1 * (digitsToNat digits : ℤ))

/-- The confidence-token parse of `parseCSVResponse`: strip everything
from the first `%` on, trim, and accept only an integer in `[0, 100]`. -/
def confidenceTokenValue (tok : JStr) : Option ℤ :=
  match jsParseInt (jsTrim (tok.takeWhile (fun c => c ≠ 37))) with
  | some v => if 0 ≤ v ∧ v ≤ 100 then some v else none
  | none => none

/-- Parsing of a single response line, before the duplicate-id check:
trim, split on commas, require at least two fields, an integer first
token that is a requested id, decision `YES`/`Y`, then the
confidence/reasoning rules of the source. -/
def parseLine (expected : List ℤ) (line : JStr) : Option ValidationResult :=
  let trimmed := jsTrim line
  if trimmed = [] then none
  else
    let parts := (splitOn 44 trimmed).map jsTrim
    if parts.length < 2 then none
    else
      match jsParseInt (parts.getD 0 []) with
      | none => none
      | some id =>
        if id ∉ expected then none
        else
          let decision := jsToUpper (parts.getD 1 [])
          let isMatch := decision = jstr "YES" || decision = jstr "Y"
          let confReason : ℤ × JStr :=
            if parts.length ≥ 3 then
              match confidenceTokenValue (parts.getD 2 []) with
              | some v =>
                (v,
                 let r := jsTrim (List.intercalate (jstr ",") (parts.drop 3))
                 if r = [] then jstr "No reason provided" else r)
              | none =>
                (if isMatch then 70 else 85,
                 jsTrim (List.intercalate (jstr ",") (parts.drop 2)))
            else (50, jstr "No reason provided")
          some ⟨id, isMatch, confReason.1, confReason.2⟩

/-- The line loop of `parseCSVResponse`: accumulate parsed verdicts and
the set (here: insertion-ordered list) of ids already found, skipping
duplicate ids. -/
def processLines (expected : List ℤ) :
    List JStr → List ValidationResult × List ℤ → List ValidationResult × List ℤ
  | [], st => st
  | line :: rest, st =>
    match parseLine expected line with
    | some r =>
      if r.id ∈ st.2 then processLines expected rest st
      else processLines expected rest (st.1 ++ [r], st.2 ++ [r.id])
    | none => processLines expected rest st

/-- The response cleaning of `parseCSVResponse`: strip code fences
(case-insensitively for `\x60\x60\x60csv`), remove every non-digit run
at a line start, trim. -/
def cleanResponse (response : JStr) : JStr :=
  jsTrim (stripLineStarts (removeAll (jstr "```")
    (removeAllCI (jstr "```csv") response)))

/-- `parseCSVResponse` from `app/api/ai/validate/route.ts`: clean the
response, parse line by line keeping the first occurrence of each
requested id, fill every missing requested id with the default verdict,
and sort by ascending id (`results.sort((a, b) => a.id - b.id)`; ids are
unique after the loop, so any comparison sort gives this list). -/
def parseCSVResponse (response : JStr) (expected : List ℤ) : List ValidationResult :=
  let lines := splitOn 10 (cleanResponse response)
  let st := processLines expected lines ([], [])
  let missing := expected.filter (fun id => id ∉ st.2)
  List.insertionSort (fun a b => a.id ≤ b.id) (st.1 ++ missing.map defaultVerdict)

end ValidateRoute

namespace Chunked
open Normalize AIValidation

/-- An `accounts` table row as read by the chunked pipeline
(`AccountDBRow` from `lib/postgres-client.ts`; the type has no email
columns, so the orchestrator's `row.email` / `row.email_domain` reads
yield `undefined`).  `[]` models SQL `NULL` as well as `''` — the
pipeline only ever distinguishes them by truthiness. -/
structure AccountDBRow where
  name : JStr := []
  phone : JStr := []
  website : JStr := []
  billing_street : JStr := []
  billing_city : JStr := []
  billing_postal_code : JStr := []
  billing_country : JStr := []
deriving DecidableEq, Repr

/-- `dbRowToStandardAccount` from `lib/find-matches-chunked.ts`. -/
def dbRowToStandardAccount (row : AccountDBRow) : Account :=
  { Name := row.name
    Phone := row.phone
    Website := row.website
    Email := []
    EmailDomain := []
    BillingStreet := row.billing_street
    BillingCity := row.billing_city
    BillingPostalCode := row.billing_postal_code
    BillingCountry := row.billing_country }

/-- `sanitizeValue` on a string from the batch client: strip the null
byte and the control characters outside tab/newline/carriage-return. -/
def sanitizeStr (s : JStr) : JStr :=
  s.filter (fun c => ¬(c ≤ 8 ∨ c = 11 ∨ c = 12 ∨ (14 ≤ c ∧ c ≤ 31) ∨ c = 127))

/-- The search keys the batch client derives from one source account
(`searchTerms` entries in `findPotentialMatchesBatch`); `none` models the
`null` the client sends for an unusable key. -/
structure SearchTerm where
  id : ℕ
  name : Option JStr
  phone : Option JStr
  website : Option JStr
deriving DecidableEq, Repr

/-- The `normalizeAccount`-derived search keys of the batch client: the
normalized name is usable above length 2, the phone above length 5, the
website (or, failing that, the non-generic email domain) above length 3. -/
def mkSearchTerm (id : ℕ) (account : Account) : SearchTerm :=
  let name := sanitizeStr account.Name
  let phone := sanitizeStr account.Phone
  let website := sanitizeStr account.Website
  let email := sanitizeStr account.Email
  let billingCountry := sanitizeStr account.BillingCountry
  let normalizedName := normalizeCompanyName name
  let normalizedPhone := normalizePhone phone billingCountry
  let normalizedWebsite :=
    if website ≠ [] then normalizeWebsite website
    else if email ≠ [] then
      match extractEmailDomain email with
      | some d => d
      | none => []
    else []
  { id := id
    name := if normalizedName ≠ [] ∧ normalizedName.length > 2 then some normalizedName else none
    phone := if normalizedPhone ≠ [] ∧ normalizedPhone.length > 5 then some normalizedPhone else none
    website := if normalizedWebsite ≠ [] ∧ normalizedWebsite.length > 3 then some normalizedWebsite else none }

/-- The outcome of the one set-oriented SQL query of
`findPotentialMatchesBatch`, supplied by the store collaborator: either a
failure or the candidate rows tagged with the source id they answer. -/
abbrev BatchQuery := List SearchTerm → Except JStr (List (ℕ × AccountDBRow))

/-- `findPotentialMatchesBatch` from `lib/postgres-client.ts` (batch
version): empty input short-circuits; a query failure is caught
(`catch … return results`) and yields the still-empty candidate map; a
successful query is grouped into a per-source-id candidate list in row
order.  The result models the returned `Map` (absent id ↦ `[]`, as read
through `map.get(id) || []`). -/
def findPotentialMatchesBatch (query : BatchQuery) (sourceAccounts : List (ℕ × Account)) :
    ℕ → List AccountDBRow :=
  if sourceAccounts = [] then fun _ => []
  else
    let terms := sourceAccounts.map (fun p => mkSearchTerm p.1 p.2)
    match query terms with
    | .error _ => fun _ => []
    | .ok rows => fun id => (rows.filter (fun r => r.1 = id)).map (fun r => r.2)

/-- Which reference system a validation pair targets. -/
inductive TargetType where
  | dimensions
  | salesforce
deriving DecidableEq, Repr

/-- `AccountPairForValidation` from `lib/ai-validation.ts`. -/
structure AccountPairForValidation where
  id : ℕ
  source : Account
  target : Account
  score : ℤ
  matchedFields : List JStr
  targetType : TargetType
deriving DecidableEq, Repr

/-- The per-record intermediate state (`PendingMatch` in
`lib/find-matches-chunked.ts`). -/
structure PendingMatch where
  index : ℕ
  sourceAccount : Account
  dimensionsMatch : Option Account
  salesforceMatch : Option Account
  dimensionsScore : ℤ
  salesforceScore : ℤ
  dimensionsMatchedFields : List JStr
  salesforceMatchedFields : List JStr
deriving DecidableEq, Repr

/-- The best-candidate loop: score every candidate and keep the first
strict improvement (`if (score > bestScore)` — ties keep the earlier
candidate). -/
def bestMatch (account : Account) (candidates : List AccountDBRow) :
    Option Account × ℤ × List JStr :=
  candidates.foldl
    (fun best row =>
      let cand := dbRowToStandardAccount row
      let r := MatchingLib.calculateMatchScore account cand []
      if r.score > best.2.1 then (some cand, r.score, r.matchedFields) else best)
    (none, 0, [])

/-- Build one `PendingMatch` from a source account and its two candidate
lists. -/
def mkPending (id : ℕ) (account : Account) (dimCandidates sfCandidates : List AccountDBRow) :
    PendingMatch :=
  let dim := bestMatch account dimCandidates
  let sf := bestMatch account sfCandidates
  { index := id
    sourceAccount := account
    dimensionsMatch := dim.1
    salesforceMatch := sf.1
    dimensionsScore := dim.2.1
    salesforceScore := sf.2.1
    dimensionsMatchedFields := dim.2.2
    salesforceMatchedFields := sf.2.2 }

/-- The `` `${pm.index}-dim` `` / `` `${pm.index}-sf` `` keys of the
pair-id map. -/
def pairKey (index : ℕ) (targetType : TargetType) : JStr :=
  jstr (toString index) ++ (match targetType with
    | .dimensions => jstr "-dim"
    | .salesforce => jstr "-sf")

/-- State of the pair-building loop: pairs so far, the next dense pair id
(starting at 1), and the `"index-type" -> pairId` map. -/
structure BuildState where
  pairs : List AccountPairForValidation
  nextId : ℕ
  keyMap : List (JStr × ℕ)
deriving DecidableEq, Repr

/-- Add one candidate of one reference system to the pair-building state
when a best candidate exists and its score is in the ambiguous band. -/
def addPair (st : BuildState) (index : ℕ) (source : Account) (best : Option Account)
    (score : ℤ) (fields : List JStr) (targetType : TargetType) : BuildState :=
  match best with
  | some target =>
    if shouldValidateWithAI score then
      { pairs := st.pairs ++
          [{ id := st.nextId, source := source, target := target, score := score,
             matchedFields := fields, targetType := targetType }]
        nextId := st.nextId + 1
        keyMap := st.keyMap ++ [(pairKey index targetType, st.nextId)] }
    else st
  | none => st

/-- The pair-building loop of `processSourceChunk`: Dimensions first,
then Salesforce, per pending match in order. -/
def buildAiPairs (pms : List PendingMatch) : BuildState :=
  pms.foldl
    (fun st pm =>
      let st := addPair st pm.index pm.sourceAccount pm.dimensionsMatch
        pm.dimensionsScore pm.dimensionsMatchedFields .dimensions
      addPair st pm.index pm.sourceAccount pm.salesforceMatch
        pm.salesforceScore pm.salesforceMatchedFields .salesforce)
    ⟨[], 1, []⟩

/-- First-match lookup in the `"index-type" -> pairId` map. -/
def lookupKey (m : List (JStr × ℕ)) (k : JStr) : Option ℕ :=
  (m.find? (fun p => p.1 = k)).map (fun p => p.2)

/-- A record's per-reference status
(`'CONFIRMED' | 'REJECTED' | 'REVIEW' | 'NEW'`). -/
inductive RecordStatus where
  | confirmed
  | rejected
  | review
  | new
deriving DecidableEq, Repr

/-- Inclusion of the resolver's three statuses into the record statuses. -/
def RecordStatus.ofFinal : FinalStatus → RecordStatus
  | .confirmed => .confirmed
  | .rejected => .rejected
  | .review => .review

/-- A record's aggregate cross-reference status. -/
inductive AggStatus where
  | both
  | dimOnly
  | sfOnly
  | new
deriving DecidableEq, Repr

/-- `MatchedAccount` from `lib/find-matches-chunked.ts`. -/
structure MatchedAccount where
  sourceAccount : Account
  dimensionsMatch : Option Account
  salesforceMatch : Option Account
  dimensionsScore : ℤ
  salesforceScore : ℤ
  dimensionsMatchedFields : List JStr
  salesforceMatchedFields : List JStr
  dimensionsAI : Option AIValidationResult
  salesforceAI : Option AIValidationResult
  dimensionsStatus : RecordStatus
  salesforceStatus : RecordStatus
  finalStatus : AggStatus
deriving DecidableEq, Repr

/-- The result-building step for one pending match: map the pair ids back
to verdicts (`dimPairId ? aiResults.get(dimPairId) || null : null`; pair
ids start at 1, so the id is always truthy when present), resolve each
reference status, and combine them into the aggregate status. -/
def finalizeOne (keyMap : List (JStr × ℕ)) (aiResults : ℕ → Option AIValidationResult)
    (pm : PendingMatch) : MatchedAccount :=
  let dimAI := match lookupKey keyMap (pairKey pm.index .dimensions) with
    | some pid => aiResults pid
    | none => none
  let sfAI := match lookupKey keyMap (pairKey pm.index .salesforce) with
    | some pid => aiResults pid
    | none => none
  let dimStatus := match pm.dimensionsMatch with
    | some _ => RecordStatus.ofFinal (determineFinalStatus pm.dimensionsScore dimAI)
    | none => .new
  let sfStatus := match pm.salesforceMatch with
    | some _ => RecordStatus.ofFinal (determineFinalStatus pm.salesforceScore sfAI)
    | none => .new
  let hasDim := dimStatus = RecordStatus.confirmed ∨ dimStatus = RecordStatus.review
  let hasSf := sfStatus = RecordStatus.confirmed ∨ sfStatus = RecordStatus.review
  { sourceAccount := pm.sourceAccount
    dimensionsMatch := pm.dimensionsMatch
    salesforceMatch := pm.salesforceMatch
    dimensionsScore := pm.dimensionsScore
    salesforceScore := pm.salesforceScore
    dimensionsMatchedFields := pm.dimensionsMatchedFields
    salesforceMatchedFields := pm.salesforceMatchedFields
    dimensionsAI := dimAI
    salesforceAI := sfAI
    dimensionsStatus := dimStatus
    salesforceStatus := sfStatus
    finalStatus :=
      if hasDim ∧ hasSf then .both
      else if hasDim then .dimOnly
      else if hasSf then .sfOnly
      else .new }

/-- The running chunk statistics. -/
structure Stats where
  both : ℕ
  dimOnly : ℕ
  sfOnly : ℕ
  new : ℕ
  aiValidated : ℕ
deriving DecidableEq, Repr

/-- `ChunkProcessingResult` from `lib/find-matches-chunked.ts`. -/
structure ChunkProcessingResult where
  «matches» : List MatchedAccount
  totalSourceAccounts : ℕ
  processedCount : ℕ
  hasMore : Bool
  stats : Stats
deriving DecidableEq, Repr

/-- The store and judge collaborators `processSourceChunk` consumes:
the source-record count, the stably-ordered page read, the one batched
candidate query per reference system (the per-account candidate limit of
30 lives inside the query), and the AI validator's id-keyed verdict map
for a pair batch. -/
structure Store where
  total : ℕ
  fetchChunk : ℕ → ℕ → List AccountDBRow
  dimQuery : BatchQuery
  sfQuery : BatchQuery
  aiValidate : List AccountPairForValidation → ℕ → Option AIValidationResult

/-- The per-record intermediate state of the success path of
`processSourceChunk` (steps 1-3: page read, the two batched candidate
retrievals, best-candidate selection per record, in page order). -/
def pendingOf (store : Store) (chunkSize startIndex : ℕ) : List PendingMatch :=
  let rows := store.fetchChunk chunkSize startIndex
  let sourceAccounts := rows.enum.map (fun p => (p.1, dbRowToStandardAccount p.2))
  let dimMap := findPotentialMatchesBatch store.dimQuery sourceAccounts
  let sfMap := findPotentialMatchesBatch store.sfQuery sourceAccounts
  sourceAccounts.map (fun p => mkPending p.1 p.2 (dimMap p.1) (sfMap p.1))

/-- An empty chunk result (the two early returns of
`processSourceChunk`). -/
def emptyResult (total : ℕ) (hasMore : Bool) : ChunkProcessingResult :=
  { «matches» := []
    totalSourceAccounts := total
    processedCount := 0
    hasMore := hasMore
    stats := { both := 0, dimOnly := 0, sfOnly := 0, new := 0, aiValidated := 0 } }

/-- `processSourceChunk` from `lib/find-matches-chunked.ts`, success
path: count, page read, the two batched candidate retrievals, per-record
best-candidate selection, ambiguous-band pair building, optional AI
validation, status resolution and aggregation.  The final statistics
count each aggregate status over the emitted records (as the source's
per-record increments do) and set `aiValidated := aiPairs.length`. -/
def processSourceChunk (store : Store) (chunkSize startIndex : ℕ) (enableAI : Bool) :
    ChunkProcessingResult :=
  let total := store.total
  if total = 0 ∨ startIndex ≥ total then emptyResult total false
  else
    let rows := store.fetchChunk chunkSize startIndex
    if rows = [] then emptyResult total (decide (startIndex < total))
    else
      let pending := pendingOf store chunkSize startIndex
      let bst := buildAiPairs pending
      let aiResults := if enableAI ∧ bst.pairs ≠ [] then store.aiValidate bst.pairs
        else fun _ => none
      let matchList := pending.map (finalizeOne bst.keyMap aiResults)
      { «matches» := matchList
        totalSourceAccounts := total
        processedCount := rows.length
        hasMore := decide (startIndex + rows.length < total)
        stats :=
          { both := (matchList.filter (fun m => m.finalStatus = AggStatus.both)).length
            dimOnly := (matchList.filter (fun m => m.finalStatus = AggStatus.dimOnly)).length
            sfOnly := (matchList.filter (fun m => m.finalStatus = AggStatus.sfOnly)).length
            new := (matchList.filter (fun m => m.finalStatus = AggStatus.new)).length
            aiValidated := bst.pairs.length } }

end Chunked

namespace AIValidation

/-- The status decision table as the specification states it, for
comparison with `determineFinalStatus`: no verdict (or an errored one)
sends scores above the validation ceiling 100 to review, below the
minimum 20 to rejected, and everything else to review; a verdict with
confidence at least 80 decides by `isMatch`; confidence in `[60, 80)`
confirms a match with heuristic score at least 85 and rejects a
non-match with heuristic score below 50; every remaining case is
review. -/
def resolveSpecTable (heuristicScore : ℤ) (verdict : Option AIValidationResult) :
    FinalStatus :=
  let noVerdictRule : FinalStatus :=
    if heuristicScore > 100 then .review
    else if heuristicScore < 20 then .rejected
    else .review
  match verdict with
  | none => noVerdictRule
  | some v =>
    if errorTruthy v.error then noVerdictRule
    else if v.confidence ≥ 80 then
      if v.isMatch then .confirmed else .rejected
    else if 60 ≤ v.confidence ∧ v.confidence < 80 then
      if v.isMatch ∧ heuristicScore ≥ 85 then .confirmed
      else if ¬v.isMatch ∧ heuristicScore < 50 then .rejected
      else .review
    else .review

end AIValidation

/-- The end-to-end scenario's source account. -/
def acmeSource : Account :=
  { Name := jstr "Acme Pty Ltd"
    Phone := jstr "+61 2 9999 0000"
    Website := jstr "www.acme.com.au" }

/-- The end-to-end scenario's target account. -/
def acmeTarget : Account :=
  { Name := jstr "ACME LIMITED"
    Phone := jstr "0299990000"
    Website := jstr "acme.com.au" }

/-- A record pair whose names compare as `'partial'` (bigram similarity
16/17) with every other field empty. -/
def alphaSource : Account := { Name := jstr "alpha beta" }

/-- See `alphaSource`. -/
def alphaTarget : Account := { Name := jstr "alpha betta" }

/-- A one-record store whose batched candidate queries both fail
(unreachable reference store). -/
def failingQueryStore : Chunked.Store :=
  { total := 1
    fetchChunk := fun _ _ => [{ name := jstr "Acme", phone := jstr "+61 2 9999 0000" }]
    dimQuery := fun _ => .error (jstr "store unreachable")
    sfQuery := fun _ => .error (jstr "store unreachable")
    aiValidate := fun _ _ => none }

/-- A two-record store on the success path (used to witness the chunk
theorems at concrete inputs). -/
def smallStore : Chunked.Store :=
  { total := 2
    fetchChunk := fun _ _ => [{ name := jstr "Acme" }]
    dimQuery := fun _ => .ok []
    sfQuery := fun _ => .ok []
    aiValidate := fun _ _ => none }

section Claims
open Normalize AIValidation ValidateRoute Chunked

/-- C8: scoring the Acme source against the Acme target in an Australian
context normalizes both names to `"acme"`, both phones to `"299990000"`,
both websites to `"acme.com.au"`, and yields a total score of exactly
140 (Name exact 85 + Phone exact 30 + Website exact 25) with three
matched fields. -/
theorem C8_end_to_end_scenario :
    normalizeCompanyName (jstr "Acme Pty Ltd") = jstr "acme" ∧
    normalizeCompanyName (jstr "ACME LIMITED") = jstr "acme" ∧
    normalizePhone (jstr "+61 2 9999 0000") (jstr "Australia") = jstr "299990000" ∧
    normalizePhone (jstr "0299990000") (jstr "Australia") = jstr "299990000" ∧
    normalizeWebsite (jstr "www.acme.com.au") = jstr "acme.com.au" ∧
    normalizeWebsite (jstr "acme.com.au") = jstr "acme.com.au" ∧
    (Matching.calculateMatchScore acmeSource acmeTarget (jstr "Australia")).score = 140 ∧
    (Matching.calculateMatchScore acmeSource acmeTarget (jstr "Australia")).matchedFields.length
      = 3 := by
  decide

/-- C4: `determineFinalStatus` computes exactly the decision table the
specification states, and in particular the seven concrete cases the
specification lists. -/
theorem C4_status_table :
    (∀ (s : ℤ) (v : Option AIValidationResult),
       determineFinalStatus s v = resolveSpecTable s v) ∧
    determineFinalStatus 90 none = .review ∧
    determineFinalStatus 110 none = .review ∧
    determineFinalStatus 10 none = .rejected ∧
    determineFinalStatus 70 (some ⟨true, 85, [], none⟩) = .confirmed ∧
    determineFinalStatus 40 (some ⟨false, 90, [], none⟩) = .rejected ∧
    determineFinalStatus 90 (some ⟨true, 65, [], none⟩) = .confirmed ∧
    determineFinalStatus 60 (some ⟨true, 65, [], none⟩) = .review := by
  refine ⟨fun s v => ?_, by decide, by decide, by decide, by decide, by decide, by decide,
    by decide⟩
  cases v with
  | none => simp only [determineFinalStatus, resolveSpecTable, AI_minScore]
  | some r =>
    simp only [determineFinalStatus, resolveSpecTable, AI_minScore]
    split_ifs <;> first | rfl | omega

/-- C1 counterexample: with both batched candidate retrievals failing,
`processSourceChunk` does not fail and does not propagate any error: it
returns a normal one-record page result in which the candidate sets are
simply missing (no match, score 0, `NEW` statuses), exactly the result
it returns when retrieval succeeds with no candidates. -/
theorem C1_counterexample_retrieval_failure_swallowed :
    (Chunked.processSourceChunk failingQueryStore 10 0 true).«matches».length = 1 ∧
    (Chunked.processSourceChunk failingQueryStore 10 0 true).processedCount = 1 ∧
    ((Chunked.processSourceChunk failingQueryStore 10 0 true).«matches».map
      (fun m => (m.dimensionsMatch, m.salesforceMatch, m.finalStatus)))
      = [(none, none, Chunked.AggStatus.new)] ∧
    Chunked.processSourceChunk failingQueryStore 10 0 true
      = Chunked.processSourceChunk
          { failingQueryStore with dimQuery := fun _ => .ok [], sfQuery := fun _ => .ok [] }
          10 0 true := by
  refine ⟨by decide, by decide, by decide, by decide⟩

/-- C1 amended: a batched candidate-retrieval failure is caught inside
`findPotentialMatchesBatch` and turned into the empty candidate map, so
`processSourceChunk` completes normally and its result is identical to
the result for a store whose queries return no rows — no chunk-level
error is propagated for candidate-retrieval failures. -/
theorem C1_amended_retrieval_failure_yields_empty_candidates
    (store : Chunked.Store) (e₁ e₂ : JStr) (chunkSize startIndex : ℕ) (enableAI : Bool) :
    Chunked.processSourceChunk
        { store with dimQuery := fun _ => .error e₁, sfQuery := fun _ => .error e₂ }
        chunkSize startIndex enableAI
      = Chunked.processSourceChunk
          { store with dimQuery := fun _ => .ok [], sfQuery := fun _ => .ok [] }
          chunkSize startIndex enableAI := by
  have hq : ∀ (e : JStr) (sa : List (ℕ × Account)),
      Chunked.findPotentialMatchesBatch (fun _ => Except.error e) sa
        = Chunked.findPotentialMatchesBatch (fun _ => Except.ok []) sa := by
    intro e sa
    by_cases h : sa = [] <;>
      simp [Chunked.findPotentialMatchesBatch, h]
  simp only [Chunked.processSourceChunk, Chunked.pendingOf, hq]

/-- C6 counterexample: a line with a valid id and decision but no third
token at all (`"1,YES"`) is parsed with confidence 50 — not the
decision-dependent default 70 the claim asserts for an absent confidence
token. -/
theorem C6_counterexample_absent_token_gives_50 :
    parseCSVResponse (jstr "1,YES") [1]
      = [{ id := 1, isMatch := true, confidence := 50, reasoning := jstr "No reason provided" }] ∧
    (50 : ℤ) ≠ 70 := by
  decide

/-- C6 amended: when a parsed line has a third token that does not parse
as an integer in `[0, 100]` after the `%` strip, the verdict's confidence
is the decision-dependent default (70 for a match, 85 otherwise); when the
line has no third token at all (exactly two comma fields), the confidence
is the fixed fallback 50. -/
theorem C6_amended_confidence_defaults
    (expected : List ℤ) (line : JStr) (r : ValidationResult)
    (h : parseLine expected line = some r) :
    (((splitOn 44 (jsTrim line)).map jsTrim).length = 2 → r.confidence = 50) ∧
    (3 ≤ ((splitOn 44 (jsTrim line)).map jsTrim).length →
      confidenceTokenValue (((splitOn 44 (jsTrim line)).map jsTrim).getD 2 []) = none →
      r.confidence = if r.isMatch then 70 else 85) := by
  simp only [parseLine] at h
  split at h
  · exact absurd h (by simp)
  · split at h
    · exact absurd h (by simp)
    · split at h
      · exact absurd h (by simp)
      · split at h
        · exact absurd h (by simp)
        · rename_i v hv
          simp only [Option.some.injEq] at h
          subst h
          constructor
          · intro h2
            simp only [h2]
            norm_num
          · intro h3 htok
            rw [if_pos (by omega)]
            split
            · rename_i w hw
              rw [hw] at htok
              exact absurd htok (by simp)
            · simp

lemma addPair_pairs_length (st : BuildState) (i : ℕ) (src : Account)
    (best : Option Account) (score : ℤ) (fields : List JStr) (tt : TargetType) :
    (addPair st i src best score fields tt).pairs.length
      = st.pairs.length + (if best.isSome ∧ shouldValidateWithAI score then 1 else 0) := by
  cases best <;> simp only [addPair, Option.isSome] <;> split_ifs <;>
    simp_all [List.length_append]

lemma buildAiPairs_go_length (pms : List PendingMatch) : ∀ st : BuildState,
    ((pms.foldl
        (fun st pm =>
          addPair
            (addPair st pm.index pm.sourceAccount pm.dimensionsMatch
              pm.dimensionsScore pm.dimensionsMatchedFields .dimensions)
            pm.index pm.sourceAccount pm.salesforceMatch
            pm.salesforceScore pm.salesforceMatchedFields .salesforce)
        st).pairs.length)
      = st.pairs.length
        + (pms.map (fun pm =>
            (if pm.dimensionsMatch.isSome ∧ shouldValidateWithAI pm.dimensionsScore
              then 1 else 0)
            + (if pm.salesforceMatch.isSome ∧ shouldValidateWithAI pm.salesforceScore
              then 1 else 0))).sum := by
  induction pms with
  | nil => intro st; simp
  | cons pm rest ih =>
    intro st
    simp only [List.foldl_cons, List.map_cons, List.sum_cons, ih, addPair_pairs_length]
    omega

/-- The number of validation pairs built from a chunk's pending matches:
one per reference system whose best candidate exists and whose score lies
in the ambiguous band. -/
lemma buildAiPairs_length (pms : List PendingMatch) :
    (buildAiPairs pms).pairs.length
      = (pms.map (fun pm =>
          (if pm.dimensionsMatch.isSome ∧ shouldValidateWithAI pm.dimensionsScore
            then 1 else 0)
          + (if pm.salesforceMatch.isSome ∧ shouldValidateWithAI pm.salesforceScore
            then 1 else 0))).sum := by
  simpa using buildAiPairs_go_length pms ⟨[], 1, []⟩

/-- C10: on the success path, `stats.aiValidated` equals the number of
validation pairs built from the ambiguous score band for the chunk —
independently of whether AI validation is enabled (it counts pairs
selected for validation, not pairs actually judged). -/
theorem C10_aiValidated_counts_selected_pairs
    (store : Chunked.Store) (chunkSize startIndex : ℕ)
    (htotal : 0 < store.total) (hoff : startIndex < store.total)
    (hrows : store.fetchChunk chunkSize startIndex ≠ []) (enableAI : Bool) :
    (Chunked.processSourceChunk store chunkSize startIndex enableAI).stats.aiValidated
      = (Chunked.buildAiPairs (Chunked.pendingOf store chunkSize startIndex)).pairs.length ∧
    (Chunked.buildAiPairs (Chunked.pendingOf store chunkSize startIndex)).pairs.length
      = ((Chunked.pendingOf store chunkSize startIndex).map (fun pm =>
          (if pm.dimensionsMatch.isSome ∧ shouldValidateWithAI pm.dimensionsScore
            then 1 else 0)
          + (if pm.salesforceMatch.isSome ∧ shouldValidateWithAI pm.salesforceScore
            then 1 else 0))).sum ∧
    (Chunked.processSourceChunk store chunkSize startIndex true).stats.aiValidated
      = (Chunked.processSourceChunk store chunkSize startIndex false).stats.aiValidated := by
  have hcond : ¬(store.total = 0 ∨ startIndex ≥ store.total) := by omega
  refine ⟨?_, buildAiPairs_length _, ?_⟩ <;>
    simp only [Chunked.processSourceChunk, if_neg hcond, if_neg hrows]

/-- C7: every chunk result contains exactly one match entry per source
record actually fetched for the page (`matches.length = processedCount`,
and on the success path `processedCount` is the fetched page's length);
`hasMore` always equals `(offset + processedCount) < totalSourceAccounts`;
and a call with `offset ≥ totalSourceAccounts` returns the empty result
with `hasMore = false` without error. -/
theorem C7_completeness_and_pagination
    (store : Chunked.Store) (chunkSize startIndex : ℕ) (enableAI : Bool) :
    (Chunked.processSourceChunk store chunkSize startIndex enableAI).«matches».length
      = (Chunked.processSourceChunk store chunkSize startIndex enableAI).processedCount ∧
    (Chunked.processSourceChunk store chunkSize startIndex enableAI).hasMore
      = decide (startIndex
          + (Chunked.processSourceChunk store chunkSize startIndex enableAI).processedCount
          < store.total) ∧
    (startIndex ≥ store.total →
      Chunked.processSourceChunk store chunkSize startIndex enableAI
        = Chunked.emptyResult store.total false) ∧
    (0 < store.total → startIndex < store.total →
      (Chunked.processSourceChunk store chunkSize startIndex enableAI).processedCount
        = (store.fetchChunk chunkSize startIndex).length) := by
  by_cases h1 : store.total = 0 ∨ startIndex ≥ store.total
  · simp only [Chunked.processSourceChunk, if_pos h1, Chunked.emptyResult]
    refine ⟨by trivial, ?_, fun _ => by trivial, fun ha hb => absurd hb (by omega)⟩
    rw [eq_comm, decide_eq_false_iff_not]
    omega
  · by_cases h2 : store.fetchChunk chunkSize startIndex = []
    · simp only [Chunked.processSourceChunk, if_neg h1, if_pos h2, Chunked.emptyResult]
      refine ⟨by trivial, by simp, fun ha => absurd ha (by omega), fun ha hb => by simp [h2]⟩
    · simp only [Chunked.processSourceChunk, if_neg h1, if_neg h2]
      refine ⟨?_, by trivial, fun ha => absurd ha (by omega), fun ha hb => by trivial⟩
      simp [Chunked.pendingOf, List.enum_length]

lemma bigrams_length (s : JStr) : (bigrams s).length = s.length - 1 := by
  match s with
  | [] => rfl
  | [_] => rfl
  | a :: b :: rest =>
    simp only [bigrams, List.length_cons, bigrams_length (b :: rest)]
    simp

lemma addBigram_total (m : List ((Nat × Nat) × Nat)) (bg : Nat × Nat) :
    ((addBigram m bg).map Prod.snd).sum = (m.map Prod.snd).sum + 1 := by
  induction m with
  | nil => rfl
  | cons p rest ih =>
    obtain ⟨k, n⟩ := p
    by_cases h : k = bg <;> simp [addBigram, h, ih] <;> omega

lemma foldl_addBigram_total (bgs : List (Nat × Nat)) :
    ∀ m, ((bgs.foldl addBigram m).map Prod.snd).sum = (m.map Prod.snd).sum + bgs.length := by
  induction bgs with
  | nil => intro m; simp
  | cons bg rest ih =>
    intro m
    simp only [List.foldl_cons, ih, addBigram_total, List.length_cons]
    omega

lemma lookupCount_le_total (m : List ((Nat × Nat) × Nat)) (bg : Nat × Nat) :
    lookupCount m bg ≤ (m.map Prod.snd).sum := by
  induction m with
  | nil => simp [lookupCount]
  | cons p rest ih =>
    obtain ⟨k, n⟩ := p
    by_cases h : k = bg <;> simp [lookupCount, h] <;> omega

lemma decCount_total (m : List ((Nat × Nat) × Nat)) (bg : Nat × Nat)
    (h : 0 < lookupCount m bg) :
    ((decCount m bg).map Prod.snd).sum + 1 = (m.map Prod.snd).sum := by
  induction m with
  | nil => simp [lookupCount] at h
  | cons p rest ih =>
    obtain ⟨k, n⟩ := p
    by_cases hk : k = bg
    · simp only [lookupCount, if_pos hk] at h
      simp [decCount, hk]
      omega
    · simp only [lookupCount, if_neg hk] at h
      simp [decCount, hk, ih h]
      omega

lemma interFold_le (bgs : List (Nat × Nat)) :
    ∀ st : List ((Nat × Nat) × Nat) × ℕ,
      ((bgs.foldl
        (fun st bg =>
          if 0 < lookupCount st.1 bg then (decCount st.1 bg, st.2 + 1) else st)
        st).2) ≤ st.2 + bgs.length := by
  induction bgs with
  | nil => intro st; simp
  | cons bg rest ih =>
    intro st
    simp only [List.foldl_cons, List.length_cons]
    by_cases h : 0 < lookupCount st.1 bg
    · simp only [if_pos h]
      have := ih (decCount st.1 bg, st.2 + 1)
      omega
    · simp only [if_neg h]
      have := ih st
      omega

lemma interFold_invariant (bgs : List (Nat × Nat)) :
    ∀ st : List ((Nat × Nat) × Nat) × ℕ,
      (bgs.foldl
        (fun st bg =>
          if 0 < lookupCount st.1 bg then (decCount st.1 bg, st.2 + 1) else st)
        st).2
      + (((bgs.foldl
          (fun st bg =>
            if 0 < lookupCount st.1 bg then (decCount st.1 bg, st.2 + 1) else st)
          st).1).map Prod.snd).sum
      = st.2 + ((st.1.map Prod.snd).sum) := by
  induction bgs with
  | nil => intro st; simp
  | cons bg rest ih =>
    intro st
    simp only [List.foldl_cons]
    by_cases h : 0 < lookupCount st.1 bg
    · simp only [if_pos h]
      have hdec := decCount_total st.1 bg h
      have hstep := ih (decCount st.1 bg, st.2 + 1)
      dsimp only at hstep
      omega
    · simp only [if_neg h]
      exact ih st

lemma dice_bound_aux (I l1 l2 : ℕ) (h1 : 2 ≤ l1) (h2 : 2 ≤ l2)
    (hle1 : I ≤ l1 - 1) (hle2 : I ≤ l2 - 1) :
    0 ≤ (JNum.frac (2 * (I : ℤ)) ((l1 + l2 - 2 : ℕ) : ℤ)).num ∧
    (JNum.frac (2 * (I : ℤ)) ((l1 + l2 - 2 : ℕ) : ℤ)).num
      ≤ (JNum.frac (2 * (I : ℤ)) ((l1 + l2 - 2 : ℕ) : ℤ)).den ∧
    0 < (JNum.frac (2 * (I : ℤ)) ((l1 + l2 - 2 : ℕ) : ℤ)).den := by
  simp only [JNum.frac]
  refine ⟨by omega, by omega, by omega⟩

/-- The Dice similarity is a fraction in `[0, 1]` with positive
denominator. -/
lemma compareTwoStrings_bounds (a b : JStr) :
    0 ≤ (compareTwoStrings a b).num ∧
    (compareTwoStrings a b).num ≤ (compareTwoStrings a b).den ∧
    0 < (compareTwoStrings a b).den := by
  unfold compareTwoStrings
  dsimp only
  split
  · exact ⟨by norm_num [JNum.ofInt], by norm_num [JNum.ofInt], by norm_num [JNum.ofInt]⟩
  split
  · exact ⟨by norm_num [JNum.ofInt], by norm_num [JNum.ofInt], by norm_num [JNum.ofInt]⟩
  · rename_i hne hlen
    push_neg at hlen
    refine dice_bound_aux _ (a.filter (fun c => !isWs c)).length
      (b.filter (fun c => !isWs c)).length hlen.1 hlen.2 ?_ ?_
    · have hinv := interFold_invariant (bigrams (b.filter (fun c => !isWs c)))
        ((bigrams (a.filter (fun c => !isWs c))).foldl addBigram [], 0)
      have htot := foldl_addBigram_total (bigrams (a.filter (fun c => !isWs c))) []
      have hblen := bigrams_length (a.filter (fun c => !isWs c))
      dsimp only at hinv
      simp only [List.map_nil, List.sum_nil] at htot
      omega
    · have hle := interFold_le (bigrams (b.filter (fun c => !isWs c)))
        ((bigrams (a.filter (fun c => !isWs c))).foldl addBigram [], 0)
      have hblen := bigrams_length (b.filter (fun c => !isWs c))
      dsimp only at hle
      omega

/-- The similarity returned by `compareFieldValues` is a fraction in
`[0, 1]` with positive denominator. -/
lemma compareFieldValues_sim_bounds (f v1 v2 country : JStr) :
    0 ≤ (compareFieldValues f v1 v2 country).2.num ∧
    (compareFieldValues f v1 v2 country).2.num ≤ (compareFieldValues f v1 v2 country).2.den ∧
    0 < (compareFieldValues f v1 v2 country).2.den := by
  unfold compareFieldValues
  dsimp only
  split_ifs <;>
    first
      | exact compareTwoStrings_bounds _ _
      | (refine ⟨?_, ?_, ?_⟩ <;> split_ifs <;> norm_num [JNum.ofInt])
      | exact ⟨by norm_num [JNum.ofInt], by norm_num [JNum.ofInt], by norm_num [JNum.ofInt]⟩

lemma jsRound_flat_bounds (w : ℤ) (hw : 0 ≤ w) (sim : JNum)
    (h0 : 0 ≤ sim.num) (h1 : sim.num ≤ sim.den) (h2 : 0 < sim.den) :
    0 ≤ jsRound ((JNum.ofInt w).mul sim) ∧ jsRound ((JNum.ofInt w).mul sim) ≤ w := by
  have hnum : (0 : ℤ) ≤ w * sim.num := mul_nonneg hw h0
  have hup : w * sim.num ≤ w * sim.den := mul_le_mul_of_nonneg_left h1 hw
  simp only [jsRound, JNum.mul, JNum.ofInt]
  rw [Int.fdiv_eq_ediv _ (by omega)]
  constructor
  · exact Int.ediv_nonneg (by omega) (by omega)
  · have hlt : 2 * (w * sim.num) + 1 * sim.den < (w + 1) * (2 * (1 * sim.den)) := by
      nlinarith [hup, h2]
    have hmul := Int.ediv_mul_le (2 * (w * sim.num) + 1 * sim.den)
      (b := 2 * (1 * sim.den)) (by omega)
    have hqb : (2 * (w * sim.num) + 1 * sim.den) / (2 * (1 * sim.den)) * (2 * (1 * sim.den))
        < (w + 1) * (2 * (1 * sim.den)) := lt_of_le_of_lt hmul hlt
    have hqlt : (2 * (w * sim.num) + 1 * sim.den) / (2 * (1 * sim.den)) < w + 1 :=
      lt_of_mul_lt_mul_right hqb (by omega)
    omega

/-- Per-field contribution bounds: when a field is not skipped, an
`{exact, alike}` weight contributes between 0 and its exact value
(provided `0 ≤ alike ≤ exact`), and a plain weight `w ≥ 0` contributes
between 0 and `w`. -/
lemma fieldContribution_bounds (pts : FieldPoints) (st : FieldStatus) (sim : JNum)
    (h0 : 0 ≤ sim.num) (h1 : sim.num ≤ sim.den) (h2 : 0 < sim.den) :
    (match pts with
      | FieldPoints.pair e al => 0 ≤ al ∧ al ≤ e
      | FieldPoints.flat w => 0 ≤ w) →
    0 ≤ fieldContribution pts st sim ∧
    fieldContribution pts st sim
      ≤ (match pts with | FieldPoints.pair e _ => e | FieldPoints.flat w => w) := by
  match pts with
  | .pair e al =>
    intro hwf
    obtain ⟨ha, hae⟩ := hwf
    simp only [fieldContribution]
    split_ifs <;> omega
  | .flat w =>
    intro hwf
    exact jsRound_flat_bounds w hwf sim h0 h1 h2

lemma scoreFields_go_bound (fields : List (JStr × FieldPoints)) (src tgt : Account)
    (country : JStr) :
    ∀ acc : ℤ × List JStr,
      (∀ fp ∈ fields, match fp.2 with
        | FieldPoints.pair e al => 0 ≤ al ∧ al ≤ e
        | FieldPoints.flat w => 0 ≤ w) →
      acc.1 ≤ (fields.foldl
        (fun acc fp =>
          let r := compareFieldValues fp.1 (src.getField fp.1) (tgt.getField fp.1) country
          if r.1 ≠ FieldStatus.nomatch then
            (acc.1 + fieldContribution fp.2 r.1 r.2, acc.2 ++ [fieldLabel fp.1 r.1 r.2])
          else acc)
        acc).1 ∧
      (fields.foldl
        (fun acc fp =>
          let r := compareFieldValues fp.1 (src.getField fp.1) (tgt.getField fp.1) country
          if r.1 ≠ FieldStatus.nomatch then
            (acc.1 + fieldContribution fp.2 r.1 r.2, acc.2 ++ [fieldLabel fp.1 r.1 r.2])
          else acc)
        acc).1
      ≤ acc.1 + (fields.map (fun fp =>
          match fp.2 with | FieldPoints.pair e _ => e | FieldPoints.flat w => w)).sum := by
  induction fields with
  | nil => intro acc _; simp
  | cons fp rest ih =>
    intro acc hwf
    have hsim := compareFieldValues_sim_bounds fp.1 (src.getField fp.1) (tgt.getField fp.1)
      country
    have hfc := fieldContribution_bounds fp.2
      (compareFieldValues fp.1 (src.getField fp.1) (tgt.getField fp.1) country).1
      (compareFieldValues fp.1 (src.getField fp.1) (tgt.getField fp.1) country).2
      hsim.1 hsim.2.1 hsim.2.2 (hwf fp (by simp))
    have hrest : ∀ q ∈ rest, match q.2 with
        | FieldPoints.pair e al => 0 ≤ al ∧ al ≤ e
        | FieldPoints.flat w => 0 ≤ w := fun q hq => hwf q (by simp [hq])
    simp only [List.foldl_cons, List.map_cons, List.sum_cons]
    by_cases hskip :
        (compareFieldValues fp.1 (src.getField fp.1) (tgt.getField fp.1) country).1
          ≠ FieldStatus.nomatch
    · simp only [if_pos hskip]
      have := ih (acc.1 + fieldContribution fp.2
        (compareFieldValues fp.1 (src.getField fp.1) (tgt.getField fp.1) country).1
        (compareFieldValues fp.1 (src.getField fp.1) (tgt.getField fp.1) country).2,
        acc.2 ++ [fieldLabel fp.1
          (compareFieldValues fp.1 (src.getField fp.1) (tgt.getField fp.1) country).1
          (compareFieldValues fp.1 (src.getField fp.1) (tgt.getField fp.1) country).2])
        hrest
      dsimp only at this ⊢
      constructor <;> omega
    · simp only [if_neg hskip]
      have := ih acc hrest
      dsimp only at this ⊢
      constructor <;> omega

lemma crossMatch_cases (src tgt : Account) :
    (Matching.crossMatch src tgt).1 = 0 ∨ (Matching.crossMatch src tgt).1 = 25 := by
  unfold Matching.crossMatch
  dsimp only
  repeat' split
  all_goals simp

/-- C9: the configured-engine score is always between 0 and 195 (the sum
of all field weights, taking the exact weight for the `{exact, alike}`
field, plus the 25-point cross-match bonus); no field contributes a
negative amount and the cross-match bonus is added at most once, as the
score decomposition shows. -/
theorem C9_score_bounds (src tgt : Account) (country : JStr) :
    0 ≤ (Matching.calculateMatchScore src tgt country).score ∧
    (Matching.calculateMatchScore src tgt country).score ≤ 195 ∧
    ((Matching.crossMatch src tgt).1 = 0 ∨ (Matching.crossMatch src tgt).1 = 25) ∧
    (Matching.calculateMatchScore src tgt country).score
      = (scoreFields Matching.MATCHING_fields src tgt country).1
        + (Matching.crossMatch src tgt).1 := by
  have hbound := scoreFields_go_bound Matching.MATCHING_fields src tgt country (0, [])
    (by
      intro fp hfp
      simp only [Matching.MATCHING_fields, List.mem_cons, List.not_mem_nil, or_false] at hfp
      rcases hfp with h | h | h | h | h <;> subst h <;> decide)
  have hsum : ((Matching.MATCHING_fields).map (fun fp =>
      match fp.2 with | FieldPoints.pair e _ => e | FieldPoints.flat w => w)).sum = 170 := by
    decide
  rw [hsum] at hbound
  have hcross := crossMatch_cases src tgt
  refine ⟨?_, ?_, hcross, rfl⟩ <;>
    · simp only [Matching.calculateMatchScore, scoreFields] at *
      omega

/-- The integer computation of `jsRound` is `Math.round` on the
fraction's rational value. -/
lemma jsRound_eq_floor (q : JNum) (h : 0 < q.den) :
    jsRound q = ⌊q.toRat + 1/2⌋ := by
  have hd : (q.den : ℚ) ≠ 0 := Int.cast_ne_zero.mpr (by omega)
  have hnat : (((2 * q.den).toNat : ℕ) : ℚ) = ((2 * q.den : ℤ) : ℚ) := by
    norm_cast
    omega
  have heq : q.toRat + 1/2 = ((2 * q.num + q.den : ℤ) : ℚ) / (((2 * q.den).toNat : ℕ) : ℚ) := by
    rw [hnat]
    simp only [JNum.toRat]
    push_cast
    field_simp
    ring
  rw [heq, Rat.floor_intCast_div_natCast]
  simp only [jsRound]
  rw [Int.fdiv_eq_ediv _ (by omega)]
  congr 1
  omega

/-- C3 counterexample: for the Name field with the `{exact: 85, alike: 50}`
weight, the pair `"alpha beta"` / `"alpha betta"` has status `'partial'`
with similarity 16/17, yet its point contribution (the whole score here)
is the plain alike weight 50, not `50 × 16/17`. -/
theorem C3_counterexample_partial_ignores_similarity :
    compareFieldValues (jstr "Name") (jstr "alpha beta") (jstr "alpha betta") []
      = (FieldStatus.near, JNum.frac 16 17) ∧
    (Matching.calculateMatchScore alphaSource alphaTarget []).score = 50 ∧
    (JNum.frac 16 17).toRat = 16 / 17 ∧
    (50 : ℚ) ≠ 50 * (16 / 17) := by
  refine ⟨by decide, by decide, ?_, by norm_num⟩
  norm_num [JNum.toRat, JNum.frac]

/-- C3 amended: the score is the sum of per-field contributions plus the
cross-match bonus, where an `{exact, alike}` field contributes its exact
weight on status exact and its plain alike weight on status partial
(similarity is not multiplied in), and a plain-number weight contributes
`Math.round(weight × similarity)`. -/
theorem C3_amended_contribution_rules (src tgt : Account) (country : JStr) :
    (Matching.calculateMatchScore src tgt country).score
      = (scoreFields Matching.MATCHING_fields src tgt country).1
        + (Matching.crossMatch src tgt).1 ∧
    (∀ (e al : ℤ) (sim : JNum),
      fieldContribution (FieldPoints.pair e al) FieldStatus.near sim = al ∧
      fieldContribution (FieldPoints.pair e al) FieldStatus.exact sim = e) ∧
    (∀ (w : ℤ) (st : FieldStatus) (sim : JNum), 0 < sim.den →
      fieldContribution (FieldPoints.flat w) st sim
        = ⌊(w : ℚ) * sim.toRat + 1/2⌋) := by
  refine ⟨rfl, fun e al sim => ⟨by simp [fieldContribution], by simp [fieldContribution]⟩,
    fun w st sim hden => ?_⟩
  have hpos : 0 < ((JNum.ofInt w).mul sim).den := by
    simp only [JNum.mul, JNum.ofInt]
    omega
  rw [show fieldContribution (FieldPoints.flat w) st sim
      = jsRound ((JNum.ofInt w).mul sim) from rfl, jsRound_eq_floor _ hpos]
  congr 1
  simp only [JNum.toRat, JNum.mul, JNum.ofInt]
  push_cast
  rw [one_mul, mul_div_assoc]

/-- Witness for the amended C3 rules at concrete inputs. -/
theorem C3_amended_contribution_rules_witness :
    fieldContribution (FieldPoints.flat 30) FieldStatus.near (JNum.frac 16 17)
      = ⌊(30 : ℚ) * (JNum.frac 16 17).toRat + 1/2⌋ ∧
    fieldContribution (FieldPoints.pair 85 50) FieldStatus.near (JNum.frac 16 17) = 50 :=
  ⟨(C3_amended_contribution_rules alphaSource alphaTarget []).2.2 30 FieldStatus.near
      (JNum.frac 16 17) (by norm_num [JNum.frac]),
   ((C3_amended_contribution_rules alphaSource alphaTarget []).2.1 85 50 (JNum.frac 16 17)).1⟩

/-- C2 counterexample: none of the four normalizers is idempotent.
`normalizeCompanyName "a and b"` leaves a double space that a second pass
collapses; `normalizePhone "61234"` (Australia) strips the country prefix
again and then falls under the 5-digit floor; `normalizeWebsite` strips
only one `www.` per pass; `normalizeAddress "- a"` leaves a leading space
that a second pass trims. -/
theorem C2_counterexample_not_idempotent :
    normalizeCompanyName (normalizeCompanyName (jstr "a and b"))
      ≠ normalizeCompanyName (jstr "a and b") ∧
    normalizePhone (normalizePhone (jstr "61234") (jstr "Australia")) (jstr "Australia")
      ≠ normalizePhone (jstr "61234") (jstr "Australia") ∧
    normalizeWebsite (normalizeWebsite (jstr "www.www.example.com"))
      ≠ normalizeWebsite (jstr "www.www.example.com") ∧
    normalizeAddress (normalizeAddress (jstr "- a"))
      ≠ normalizeAddress (jstr "- a") := by
  refine ⟨by decide, by decide, by decide, by decide⟩

lemma mem_takeLastN {n : ℕ} {l : JStr} {c : ℕ} (h : c ∈ takeLastN n l) : c ∈ l :=
  List.drop_subset _ _ h

lemma takeLastN_length_le (n : ℕ) (l : JStr) : (takeLastN n l).length ≤ n := by
  simp only [takeLastN, List.length_drop]
  omega

lemma takeLastN_of_length_le {n : ℕ} {l : JStr} (h : l.length ≤ n) : takeLastN n l = l := by
  simp only [takeLastN]
  rw [show l.length - n = 0 by omega, List.drop_zero]

lemma normalizePhone_all_digits (phone country : JStr) :
    ∀ c ∈ normalizePhone phone country, isDigit c := by
  intro c hc
  unfold normalizePhone at hc
  dsimp only at hc
  split_ifs at hc <;>
    first
      | exact (List.mem_filter.mp (List.drop_subset _ _ (mem_takeLastN hc))).2
      | exact (List.mem_filter.mp (mem_takeLastN hc)).2
      | exact absurd hc (List.not_mem_nil c)

lemma normalizePhone_length_le (phone country : JStr) :
    (normalizePhone phone country).length ≤ (resolvePrefixes country).expectedLength := by
  unfold normalizePhone
  dsimp only
  split_ifs <;> simp [takeLastN_length_le]

lemma normalizePhone_idem_cond (phone country : JStr)
    (hlen : normalizePhone phone country = [] ∨ 5 ≤ (normalizePhone phone country).length)
    (hintl : (resolvePrefixes country).international.isPrefixOf (normalizePhone phone country)
      = false)
    (hlocal : ¬((jstr "0").isPrefixOf (normalizePhone phone country) = true ∧
      (resolvePrefixes country).localPrefix = jstr "0")) :
    normalizePhone (normalizePhone phone country) country
      = normalizePhone phone country := by
  by_cases hy : normalizePhone phone country = []
  · rw [hy]
    simp [normalizePhone]
  · have hdig : (normalizePhone phone country).filter isDigit = normalizePhone phone country :=
      List.filter_eq_self.mpr (normalizePhone_all_digits phone country)
    have hlen5 : 5 ≤ (normalizePhone phone country).length := hlen.resolve_left hy
    have hle := normalizePhone_length_le phone country
    conv_lhs => rw [normalizePhone]
    rw [if_neg hy]
    dsimp only
    rw [hdig, if_neg (by omega), if_neg (by simp [hintl]), if_neg hlocal]
    exact takeLastN_of_length_le hle

lemma toLowerCode_idem (c : ℕ) : toLowerCode (toLowerCode c) = toLowerCode c := by
  unfold toLowerCode
  split_ifs <;> omega

lemma map_eq_self_of {f : ℕ → ℕ} {l : JStr} (h : ∀ c ∈ l, f c = c) : l.map f = l := by
  induction l with
  | nil => rfl
  | cons c rest ih =>
    simp only [List.map_cons, h c (by simp), ih (fun d hd => h d (by simp [hd])),
      List.cons.injEq, and_self]

lemma normalizeWebsite_subset (url : JStr) : normalizeWebsite url ⊆ jsToLower url := by
  unfold normalizeWebsite
  dsimp only
  split_ifs <;>
    (intro c hc
     first
       | exact absurd hc (List.not_mem_nil c)
       | (have hc := List.takeWhile_subset _ (List.takeWhile_subset _ hc)
          first
            | exact List.drop_subset _ _ (List.drop_subset _ _ (List.dropLast_subset _ hc))
            | exact List.drop_subset _ _ (List.dropLast_subset _ hc)
            | exact List.dropLast_subset _ hc
            | exact List.drop_subset _ _ (List.drop_subset _ _ hc)
            | exact List.drop_subset _ _ hc
            | exact hc))

lemma normalizeWebsite_lowered (url : JStr) :
    ∀ c ∈ normalizeWebsite url, toLowerCode c = c := by
  intro c hc
  obtain ⟨d, -, rfl⟩ := List.mem_map.mp (normalizeWebsite_subset url hc)
  exact toLowerCode_idem d

lemma normalizeWebsite_no_query (url : JStr) : (63 : ℕ) ∉ normalizeWebsite url := by
  intro hc
  unfold normalizeWebsite at hc
  dsimp only at hc
  split_ifs at hc <;>
    first
      | exact absurd hc (List.not_mem_nil 63)
      | simpa using List.mem_takeWhile_imp hc

lemma normalizeWebsite_no_slash (url : JStr) : (47 : ℕ) ∉ normalizeWebsite url := by
  intro hc
  unfold normalizeWebsite at hc
  dsimp only at hc
  split_ifs at hc <;>
    first
      | exact absurd hc (List.not_mem_nil 47)
      | simpa using List.mem_takeWhile_imp (List.takeWhile_subset _ hc)

lemma normalizeWebsite_fixed (y : JStr)
    (hlow : ∀ c ∈ y, toLowerCode c = c)
    (h47 : (47 : ℕ) ∉ y) (h63 : (63 : ℕ) ∉ y)
    (hwww : (jstr "www.").isPrefixOf y = false)
    (hhttp : (jstr "http://").isPrefixOf y = false)
    (hhttps : (jstr "https://").isPrefixOf y = false) :
    normalizeWebsite y = y := by
  by_cases hy : y = []
  · rw [hy]
    rfl
  · unfold normalizeWebsite
    rw [if_neg hy]
    dsimp only
    rw [show jsToLower y = y from map_eq_self_of hlow]
    simp only [hwww, hhttp, hhttps, Bool.false_eq_true, if_false]
    rw [if_neg (fun heq => h47 (List.mem_of_mem_getLast? (Option.mem_def.mpr heq)))]
    rw [show List.takeWhile (fun c => decide (c ≠ 47)) y = y from
      List.takeWhile_eq_self_iff.mpr (fun c hc => by
        simp only [decide_eq_true_eq]
        rintro rfl
        exact h47 hc)]
    exact List.takeWhile_eq_self_iff.mpr (fun c hc => by
      simp only [decide_eq_true_eq]
      rintro rfl
      exact h63 hc)

/-- C2 amended: universal idempotence fails (see the counterexample), but
a second application is the identity away from the failing edge cases:
`normalizePhone` is idempotent whenever its output is empty or at least
five digits and does not itself begin with the resolved international
prefix (or the local `0` when the country uses one), and
`normalizeWebsite` is idempotent whenever its output does not itself
begin with `www.`, `http://` or `https://`. -/
theorem C2_amended_conditional_idempotence :
    (∀ phone country : JStr,
      (normalizePhone phone country = [] ∨ 5 ≤ (normalizePhone phone country).length) →
      (resolvePrefixes country).international.isPrefixOf (normalizePhone phone country)
        = false →
      ¬((jstr "0").isPrefixOf (normalizePhone phone country) = true ∧
        (resolvePrefixes country).localPrefix = jstr "0") →
      normalizePhone (normalizePhone phone country) country
        = normalizePhone phone country) ∧
    (∀ url : JStr,
      (jstr "www.").isPrefixOf (normalizeWebsite url) = false →
      (jstr "http://").isPrefixOf (normalizeWebsite url) = false →
      (jstr "https://").isPrefixOf (normalizeWebsite url) = false →
      normalizeWebsite (normalizeWebsite url) = normalizeWebsite url) := by
  refine ⟨normalizePhone_idem_cond, fun url h1 h2 h3 => ?_⟩
  exact normalizeWebsite_fixed (normalizeWebsite url) (normalizeWebsite_lowered url)
    (normalizeWebsite_no_slash url) (normalizeWebsite_no_query url) h1 h2 h3

/-- Witness for the amended C2 conditions at the end-to-end scenario's
inputs. -/
theorem C2_amended_conditional_idempotence_witness :
    normalizePhone (normalizePhone (jstr "+61 2 9999 0000") (jstr "Australia"))
        (jstr "Australia")
      = normalizePhone (jstr "+61 2 9999 0000") (jstr "Australia") ∧
    normalizeWebsite (normalizeWebsite (jstr "www.acme.com.au"))
      = normalizeWebsite (jstr "www.acme.com.au") :=
  ⟨C2_amended_conditional_idempotence.1 (jstr "+61 2 9999 0000") (jstr "Australia")
      (by decide) (by decide) (by decide),
   C2_amended_conditional_idempotence.2 (jstr "www.acme.com.au")
      (by decide) (by decide) (by decide)⟩

lemma parseLine_id_mem {expected : List ℤ} {line : JStr} {r : ValidationResult}
    (h : parseLine expected line = some r) : r.id ∈ expected := by
  simp only [parseLine] at h
  split at h
  · exact absurd h (by simp)
  · split at h
    · exact absurd h (by simp)
    · split at h
      · exact absurd h (by simp)
      · split at h
        · exact absurd h (by simp)
        · rename_i hnm
          simp only [Option.some.injEq] at h
          subst h
          exact not_not.mp hnm

lemma processLines_inv (expected : List ℤ) (lines : List JStr) :
    ∀ st : List ValidationResult × List ℤ,
      st.1.map (fun r => r.id) = st.2 → st.2.Nodup → (∀ i ∈ st.2, i ∈ expected) →
      ((processLines expected lines st).1.map (fun r => r.id)
          = (processLines expected lines st).2)
        ∧ (processLines expected lines st).2.Nodup
        ∧ (∀ i ∈ (processLines expected lines st).2, i ∈ expected) := by
  induction lines with
  | nil => exact fun st h1 h2 h3 => ⟨h1, h2, h3⟩
  | cons line rest ih =>
    intro st h1 h2 h3
    simp only [processLines]
    cases hpl : parseLine expected line with
    | none => exact ih st h1 h2 h3
    | some r =>
      by_cases hdup : r.id ∈ st.2
      · simp only [if_pos hdup]
        exact ih st h1 h2 h3
      · simp only [if_neg hdup]
        refine ih (st.1 ++ [r], st.2 ++ [r.id]) ?_ ?_ ?_
        · simp [h1]
        · simp [List.nodup_append, h2, hdup]
        · intro i hi
          rcases List.mem_append.mp hi with hold | hnew
          · exact h3 i hold
          · simp only [List.mem_singleton] at hnew
            subst hnew
            exact parseLine_id_mem hpl

lemma processLines_mono (expected : List ℤ) (lines : List JStr) :
    ∀ st : List ValidationResult × List ℤ, ∀ r ∈ st.1,
      r ∈ (processLines expected lines st).1 := by
  induction lines with
  | nil => exact fun st r hr => hr
  | cons line rest ih =>
    intro st r hr
    simp only [processLines]
    cases hpl : parseLine expected line with
    | none => exact ih st r hr
    | some q =>
      by_cases hdup : q.id ∈ st.2
      · simp only [if_pos hdup]
        exact ih st r hr
      · simp only [if_neg hdup]
        exact ih (st.1 ++ [q], st.2 ++ [q.id]) r (List.mem_append_left _ hr)

lemma processLines_first_kept (expected : List ℤ) (lines : List JStr) :
    ∀ (st : List ValidationResult × List ℤ) (i : ℤ) (r : ValidationResult),
      i ∉ st.2 →
      (lines.filterMap (parseLine expected)).find? (fun x => x.id = i) = some r →
      r ∈ (processLines expected lines st).1 := by
  induction lines with
  | nil =>
    intro st i r _ hfind
    simp at hfind
  | cons line rest ih =>
    intro st i r hnotin hfind
    simp only [List.filterMap_cons] at hfind
    simp only [processLines]
    cases hpl : parseLine expected line with
    | none =>
      rw [hpl] at hfind
      exact ih st i r hnotin hfind
    | some q =>
      rw [hpl] at hfind
      by_cases hqi : q.id = i
      · rw [List.find?_cons_of_pos _ (by simp [hqi])] at hfind
        obtain rfl : q = r := Option.some.injEq q r ▸ hfind
        have hdup : q.id ∉ st.2 := hqi ▸ hnotin
        simp only [if_neg hdup]
        exact processLines_mono expected rest (st.1 ++ [q], st.2 ++ [q.id]) q
          (List.mem_append_right _ (List.mem_singleton.mpr rfl))
      · rw [List.find?_cons_of_neg _ (by simp [hqi])] at hfind
        by_cases hdup : q.id ∈ st.2
        · simp only [if_pos hdup]
          exact ih st i r hnotin hfind
        · simp only [if_neg hdup]
          refine ih (st.1 ++ [q], st.2 ++ [q.id]) i r ?_ hfind
          intro hmem
          rcases List.mem_append.mp hmem with h1 | h2
          · exact hnotin h1
          · exact hqi (List.mem_singleton.mp h2).symm

/-- C5: for every request with distinct ids and any response text, the
parser returns exactly one verdict per requested id — exactly `N`
verdicts, with ids sorted ascending and forming a permutation of the
requested ids (so unknown ids are discarded and duplicates collapse to
one verdict) — every requested id with no parsed line carries the
default verdict, and whenever any line parses to a given id, the output
contains the verdict of the FIRST such line in cleaned-line order (with
one verdict per id, this is the id's unique verdict: for duplicate ids
only the first occurrence is kept). -/
theorem C5_parser_returns_one_verdict_per_id (expected : List ℤ) (response : JStr)
    (hnodup : expected.Nodup) :
    (parseCSVResponse response expected).length = expected.length ∧
    List.Sorted (fun a b => a ≤ b)
      ((parseCSVResponse response expected).map (fun r => r.id)) ∧
    ((parseCSVResponse response expected).map (fun r => r.id)).Perm expected ∧
    (∀ i ∈ expected,
      i ∉ (processLines expected (splitOn 10 (cleanResponse response)) ([], [])).2 →
      defaultVerdict i ∈ parseCSVResponse response expected) ∧
    (∀ (i : ℤ) (r : ValidationResult),
      ((splitOn 10 (cleanResponse response)).filterMap (parseLine expected)).find?
          (fun x => x.id = i) = some r →
      r ∈ parseCSVResponse response expected) := by
  obtain ⟨hmap, hnd, hsub⟩ := processLines_inv expected
    (splitOn 10 (cleanResponse response)) ([], []) (by simp) (by simp) (by simp)
  have hrs : parseCSVResponse response expected
      = List.insertionSort (fun a b => a.id ≤ b.id)
          ((processLines expected (splitOn 10 (cleanResponse response)) ([], [])).1
            ++ (expected.filter (fun i =>
                i ∉ (processLines expected (splitOn 10 (cleanResponse response)) ([], [])).2)).map
                defaultVerdict) := rfl
  haveI : IsTotal ValidationResult (fun a b => a.id ≤ b.id) := ⟨fun a b => le_total a.id b.id⟩
  haveI : IsTrans ValidationResult (fun a b => a.id ≤ b.id) :=
    ⟨fun _ _ _ hab hbc => le_trans hab hbc⟩
  have hsortperm := List.perm_insertionSort (fun a b => a.id ≤ b.id)
    ((processLines expected (splitOn 10 (cleanResponse response)) ([], [])).1
      ++ (expected.filter (fun i =>
          i ∉ (processLines expected (splitOn 10 (cleanResponse response)) ([], [])).2)).map
          defaultVerdict)
  have hids : ((processLines expected (splitOn 10 (cleanResponse response)) ([], [])).1
        ++ (expected.filter (fun i =>
            i ∉ (processLines expected (splitOn 10 (cleanResponse response)) ([], [])).2)).map
            defaultVerdict).map (fun r => r.id)
      = (processLines expected (splitOn 10 (cleanResponse response)) ([], [])).2
        ++ expected.filter (fun i =>
            i ∉ (processLines expected (splitOn 10 (cleanResponse response)) ([], [])).2) := by
    rw [List.map_append, hmap, List.map_map]
    congr 1
    exact List.map_congr_left (fun i _ => rfl) |>.trans (List.map_id _)
  have hpermF : ((processLines expected (splitOn 10 (cleanResponse response)) ([], [])).2
        ++ expected.filter (fun i =>
            i ∉ (processLines expected (splitOn 10 (cleanResponse response)) ([], [])).2)).Perm
      expected := by
    have h1 : (processLines expected (splitOn 10 (cleanResponse response)) ([], [])).2.Perm
        (expected.filter (fun x =>
          decide (x ∈ (processLines expected (splitOn 10 (cleanResponse response)) ([], [])).2))) := by
      rw [List.perm_ext_iff_of_nodup hnd (hnodup.filter _)]
      intro a
      simp only [List.mem_filter, decide_eq_true_eq]
      exact ⟨fun ha => ⟨hsub a ha, ha⟩, fun ha => ha.2⟩
    have h2 : expected.filter (fun i =>
          i ∉ (processLines expected (splitOn 10 (cleanResponse response)) ([], [])).2)
        = expected.filter (fun x =>
          !decide (x ∈ (processLines expected (splitOn 10 (cleanResponse response)) ([], [])).2)) := by
      simp only [decide_not]
    rw [h2]
    exact (h1.append (List.Perm.refl _)).trans (List.filter_append_perm _ _)
  have hidperm : ((parseCSVResponse response expected).map (fun r => r.id)).Perm expected := by
    rw [hrs]
    exact ((hsortperm.map (fun r => r.id)).trans (hids ▸ List.Perm.refl _)).trans hpermF
  refine ⟨?_, ?_, hidperm, ?_, ?_⟩
  · have := hidperm.length_eq
    simpa using this
  · rw [hrs]
    have hsorted := List.sorted_insertionSort (fun a b => a.id ≤ b.id)
      ((processLines expected (splitOn 10 (cleanResponse response)) ([], [])).1
        ++ (expected.filter (fun i =>
            i ∉ (processLines expected (splitOn 10 (cleanResponse response)) ([], [])).2)).map
            defaultVerdict)
    exact (List.pairwise_map).mpr hsorted
  · intro i hi hnotfound
    rw [hrs]
    rw [hsortperm.mem_iff]
    refine List.mem_append_right _ ?_
    exact List.mem_map_of_mem defaultVerdict (List.mem_filter.mpr ⟨hi, by simpa using hnotfound⟩)
  · intro i r hfind
    rw [hrs]
    rw [hsortperm.mem_iff]
    exact List.mem_append_left _
      (processLines_first_kept expected (splitOn 10 (cleanResponse response))
        ([], []) i r (by simp) hfind)

/-- Witness for C5 at a concrete two-pair request whose response repeats
id 1 with conflicting verdicts: the first occurrence (`YES, 90`) is the
one kept, and the unanswered id 2 gets the default verdict. -/
theorem C5_parser_returns_one_verdict_per_id_witness :
    (parseCSVResponse (jstr "1,YES,90,ok\n1,NO,40,dup") [1, 2]).length = 2 ∧
    List.Sorted (fun a b => a ≤ b)
      ((parseCSVResponse (jstr "1,YES,90,ok\n1,NO,40,dup") [1, 2]).map (fun r => r.id)) ∧
    ((parseCSVResponse (jstr "1,YES,90,ok\n1,NO,40,dup") [1, 2]).map (fun r => r.id)).Perm
      [1, 2] ∧
    defaultVerdict 2 ∈ parseCSVResponse (jstr "1,YES,90,ok\n1,NO,40,dup") [1, 2] ∧
    (⟨1, true, 90, jstr "ok"⟩ : ValidationResult)
      ∈ parseCSVResponse (jstr "1,YES,90,ok\n1,NO,40,dup") [1, 2] := by
  have h := C5_parser_returns_one_verdict_per_id [1, 2]
    (jstr "1,YES,90,ok\n1,NO,40,dup") (by decide)
  exact ⟨h.1, h.2.1, h.2.2.1, h.2.2.2.1 2 (by decide) (by decide),
    h.2.2.2.2 1 ⟨1, true, 90, jstr "ok"⟩ (by decide)⟩

/-- Witness for the amended C6 rules at concrete lines. -/
theorem C6_amended_confidence_defaults_witness :
    (⟨1, false, 85, jstr "abc"⟩ : ValidationResult).confidence
      = (if (⟨1, false, 85, jstr "abc"⟩ : ValidationResult).isMatch then 70 else 85) ∧
    (⟨1, true, 50, jstr "No reason provided"⟩ : ValidationResult).confidence = 50 :=
  ⟨(C6_amended_confidence_defaults [1] (jstr "1,NO,abc") ⟨1, false, 85, jstr "abc"⟩
      (by decide)).2 (by decide) (by decide),
   (C6_amended_confidence_defaults [1] (jstr "1,YES") ⟨1, true, 50, jstr "No reason provided"⟩
      (by decide)).1 (by decide)⟩

/-- Witness for C7 at a concrete store: an out-of-range offset yields the
empty result, and an in-range page is fully represented. -/
theorem C7_completeness_and_pagination_witness :
    Chunked.processSourceChunk smallStore 1 5 true = Chunked.emptyResult 2 false ∧
    (Chunked.processSourceChunk smallStore 1 0 true).processedCount
      = (smallStore.fetchChunk 1 0).length :=
  ⟨(C7_completeness_and_pagination smallStore 1 5 true).2.2.1 (by decide),
   (C7_completeness_and_pagination smallStore 1 0 true).2.2.2 (by decide) (by decide)⟩

/-- Witness for C10 at a concrete store on the success path. -/
theorem C10_aiValidated_counts_selected_pairs_witness :
    (Chunked.processSourceChunk smallStore 1 0 true).stats.aiValidated
      = (Chunked.buildAiPairs (Chunked.pendingOf smallStore 1 0)).pairs.length ∧
    (Chunked.processSourceChunk smallStore 1 0 true).stats.aiValidated
      = (Chunked.processSourceChunk smallStore 1 0 false).stats.aiValidated :=
  ⟨(C10_aiValidated_counts_selected_pairs smallStore 1 0 (by decide) (by decide)
      (by decide) true).1,
   (C10_aiValidated_counts_selected_pairs smallStore 1 0 (by decide) (by decide)
      (by decide) true).2.2⟩

end Claims
